import Mathlib

/-!
Pie chart component (`src/scripts/index.js`).

A shallow embedding of the `<pie-chart>` custom element: its easing function,
the `Point` helper, the constructor, the render pass `draw`, label placement,
the hover handlers and the animation frame callback.

The script computes with JavaScript numbers.  The definitions are written once,
over any type `α` that provides the number operations of the language
(`JsNumber α`: the arithmetic operators, the literals, `<`, `===` and the
truth value of a number, with no law assumed) and over a record `JsMath α` of
the functions of the `Math` object.  Two interpretations are given:

* `F64`, the IEEE 754 binary64 numbers with round-to-nearest-even, the
  arithmetic of the script itself.  Its operators are computable and exact to
  the last bit; `Math.cos`, `Math.sin` and `Math.pow`, which the language
  standard leaves to the implementation, stay parameters (`f64Math`).
* `ℝ` with the real `π`, `cos`, `sin` and power (`realMath`): the same
  computation carried out without rounding.

Number-to-text conversion is not modelled: an attribute that the script sets
from a number keeps the number, and the path data string is kept as the
sequence of its tokens.  Of the document tree only what the methods read or
write is kept: the paths, the lines, the labels and the dispatched events; the
style sheet, the mask and the registration of the listeners are left out.
A method call on a missing element, a `TypeError` in the script, is the result
`none`.
-/

namespace Graphiques

/-- The operations of JavaScript on numbers that the script uses: the
arithmetic operators and the numeric literals (through the parent classes),
the comparison `a < b`, strict equality `a === b`, and the truth value of a
number in a condition.  No law is assumed of them. -/
class JsNumber (α : Type) extends Zero α, One α, NatCast α, Add α, Sub α, Mul α, Div α, Neg α,
    OfScientific α where
  /-- The comparison `a < b`. -/
  lt : α → α → Bool
  /-- Strict equality `a === b`. -/
  strictEq : α → α → Bool
  /-- The truth value of a number: `!x` is its negation. -/
  truthy : α → Bool

/-- What the script uses of the JavaScript `Math` object. -/
structure JsMath (α : Type) where
  /-- The constant `Math.PI`. -/
  PI : α
  /-- The function `Math.cos`. -/
  cos : α → α
  /-- The function `Math.sin`. -/
  sin : α → α
  /-- The function `Math.pow`. -/
  pow : α → α → α

/-- Exact arithmetic: the real numbers with their own operations. -/
noncomputable instance realNumber : JsNumber ℝ where
  lt a b := decide (a < b)
  strictEq a b := decide (a = b)
  truthy a := decide (a ≠ 0)

/-- The interpretation of `Math` in exact real arithmetic. -/
noncomputable def realMath : JsMath ℝ where
  PI := Real.pi
  cos := Real.cos
  sin := Real.sin
  pow := fun a b => a ^ b

/-- An IEEE 754 binary64 number.  A finite value is a sign and a magnitude
counted in units of `2^(-1074)`, the smallest positive binary64 number:
`fin neg n` is `(-1)^neg * n * 2^(-1074)`.  The magnitudes of binary64 numbers
are the `n` that `roundAt` leaves unchanged. -/
inductive F64 where
  | fin (neg : Bool) (n : Nat)
  | inf (neg : Bool)
  | nan
deriving DecidableEq

namespace F64

/-- One step of the bit count: drop `k` low bits when something is left. -/
def bitLenStep (acc : Nat × Nat) (k : Nat) : Nat × Nat :=
  if acc.1 >>> k = 0 then acc else (acc.1 >>> k, acc.2 + k)

/-- The number of binary digits of `n`, for `n` below `2^8192`. -/
def bitLen (n : Nat) : Nat :=
  let acc := [4096, 2048, 1024, 512, 256, 128, 64, 32, 16, 8, 4, 2, 1].foldl bitLenStep (n, 0)
  acc.2 + acc.1

/-- Rounding to binary64, to nearest with ties to even: the value is
`N * 2^(-1074 - u)`, exactly, or with a last binary digit of `N` that stands
for a non-zero remainder when `u ≥ 2`.  At most 53 significant digits are
kept, none below `2^(-1074)`; what reaches `2^1024` becomes infinite. -/
def roundAt (neg : Bool) (N u : Nat) : F64 :=
  let s := max (bitLen N - 53) u
  let q := N >>> s
  let r := N - (q <<< s)
  let half := (1 <<< s) >>> 1
  let up : Bool := decide (s ≠ 0) && (decide (half < r) || (decide (r = half) && decide (q % 2 = 1)))
  let m := if up then q + 1 else q
  let n := m <<< (s - u)
  if n < 1 <<< 2098 then fin neg n else inf neg

/-- The binary64 sum. -/
def add : F64 → F64 → F64
  | nan, _ => nan
  | _, nan => nan
  | inf a, inf b => if a = b then inf a else nan
  | inf a, fin _ _ => inf a
  | fin _ _, inf b => inf b
  | fin a m, fin b n =>
    if a = b then roundAt a (m + n) 0
    else if m = n then fin false 0
    else if n < m then roundAt a (m - n) 0
    else roundAt b (n - m) 0

/-- The binary64 opposite. -/
def neg : F64 → F64
  | nan => nan
  | inf a => inf (!a)
  | fin a n => fin (!a) n

/-- The binary64 difference. -/
def sub (x y : F64) : F64 := add x (neg y)

/-- The binary64 product. -/
def mul : F64 → F64 → F64
  | nan, _ => nan
  | _, nan => nan
  | inf a, inf b => inf (a != b)
  | inf a, fin b n => if n = 0 then nan else inf (a != b)
  | fin a m, inf b => if m = 0 then nan else inf (a != b)
  | fin a m, fin b n => roundAt (a != b) (m * n) 1074

/-- The binary64 rounding of the quotient of two natural numbers, `q ≠ 0`. -/
def roundRatio (neg : Bool) (p q : Nat) : F64 :=
  roundAt neg (2 * ((p <<< 1075) / q) + (if (p <<< 1075) % q = 0 then 0 else 1)) 2

/-- The binary64 quotient. -/
def div : F64 → F64 → F64
  | nan, _ => nan
  | _, nan => nan
  | inf _, inf _ => nan
  | inf a, fin b _ => inf (a != b)
  | fin a _, inf b => fin (a != b) 0
  | fin a m, fin b n =>
    if n = 0 then (if m = 0 then nan else inf (a != b))
    else roundRatio (a != b) m n

/-- The binary64 number nearest to a natural number. -/
def ofNat (k : Nat) : F64 := roundAt false (k <<< 1074) 0

/-- The power `b^e` by repeated squaring, for `e` below `2^fuel`. -/
def powAux (b : Nat) : Nat → Nat → Nat
  | 0, _ => 1
  | fuel + 1, e =>
    if e = 0 then 1
    else if e % 2 = 0 then powAux b fuel (e / 2) * powAux b fuel (e / 2)
    else powAux b fuel (e / 2) * powAux b fuel (e / 2) * b

/-- The power of ten `10^e`, for `e` below `2^64`. -/
def pow10 (e : Nat) : Nat := powAux 10 64 e

/-- The binary64 number nearest to the decimal literal `m * 10^e`, or
`m * 10^(-e)` when `negExp` is set: the value of that literal in a script and
of `parseFloat` on its text. -/
def ofScientific (m : Nat) (negExp : Bool) (e : Nat) : F64 :=
  if negExp then roundRatio false m (pow10 e) else ofNat (m * pow10 e)

/-- The comparison `x < y` of binary64 numbers. -/
def lt : F64 → F64 → Bool
  | nan, _ => false
  | _, nan => false
  | inf a, inf b => a && !b
  | inf a, fin _ _ => a
  | fin _ _, inf b => !b
  | fin false m, fin false n => decide (m < n)
  | fin true m, fin true n => decide (n < m)
  | fin true m, fin false n => decide (0 < m) || decide (0 < n)
  | fin false _, fin true _ => false

/-- Strict equality `x === y` of binary64 numbers: the two zeros are equal,
`NaN` equals nothing. -/
def strictEq : F64 → F64 → Bool
  | fin a m, fin b n => (decide (m = 0) && decide (n = 0)) || (decide (a = b) && decide (m = n))
  | inf a, inf b => decide (a = b)
  | _, _ => false

/-- The truth value of a binary64 number: false for the zeros and `NaN`. -/
def truthy : F64 → Bool
  | fin _ n => decide (n ≠ 0)
  | inf _ => true
  | nan => false

/-- The value of `Math.PI`, `3.141592653589793`: `7074237752028440 * 2^(-51)`. -/
def PI : F64 := fin false (7074237752028440 <<< 1023)

/-- Whether the number is finite: neither an infinity nor `NaN`. -/
def isFinite : F64 → Bool
  | fin _ _ => true
  | _ => false

/-- The exact value of a finite binary64 number as a rational number; 0 for
the infinities and `NaN`. -/
def toRat : F64 → ℚ
  | fin neg n => (if neg then -1 else 1) * (n : ℚ) / 2 ^ 1074
  | _ => 0

end F64

/-- The arithmetic of the script: binary64 with round-to-nearest-even. -/
instance f64Number : JsNumber F64 where
  zero := F64.fin false 0
  one := F64.ofNat 1
  natCast := F64.ofNat
  add := F64.add
  sub := F64.sub
  mul := F64.mul
  div := F64.div
  neg := F64.neg
  ofScientific := F64.ofScientific
  lt := F64.lt
  strictEq := F64.strictEq
  truthy := F64.truthy

/-- The `Math` object over binary64: `Math.PI` is the binary64 number nearest
to `π`; the three functions are whatever the implementation computes. -/
def f64Math (cos sin : F64 → F64) (pow : F64 → F64 → F64) : JsMath F64 where
  PI := F64.PI
  cos := cos
  sin := sin
  pow := pow

section Model

variable {α : Type} [JsNumber α]

/-- Source: `easeOutExpo(x)`, `x === 1 ? 1 : 1 - Math.pow(2, -10 * x)`. -/
def easeOutExpo (M : JsMath α) (x : α) : α :=
  if JsNumber.strictEq x 1 then 1 else 1 - M.pow 2 (-10 * x)

/-- Source: `class Point`, a pair of coordinates. -/
structure Point (α : Type) where
  x : α
  y : α
deriving DecidableEq

/-- Source: `Point.toSvgPath`, the text `x y`, kept as its two numbers. -/
def Point.toSvgPath (p : Point α) : List α := [p.x, p.y]

/-- Source: `Point.fromAngle(angle)`. -/
def Point.fromAngle (M : JsMath α) (angle : α) : Point α :=
  ⟨M.cos angle, M.sin angle⟩

/-- One token of an SVG path data string: a command letter or a number. -/
inductive Tok (α : Type) where
  | cmd (c : String)
  | num (v : α)
deriving DecidableEq

/-- An SVG `path` element: its `fill` and `d` attributes. -/
structure PathEl (α : Type) where
  fill : String
  d : Option (List (Tok α))
deriving DecidableEq

/-- An SVG `line` element with the attributes the script sets. -/
structure LineEl (α : Type) where
  stroke : String
  strokeWidth : String
  x1 : String
  y1 : String
  x2 : Option α
  y2 : Option α
deriving DecidableEq

/-- A label `div`: its text, its class list, and the `top` and `left` style
properties, each the number in front of the percent sign. -/
structure LabelEl (α : Type) where
  innerText : String
  classList : List String
  top : Option α
  left : Option α
deriving DecidableEq

/-- A `CustomEvent` dispatched by the component. -/
structure CustomEvent where
  type : String
  detail : Nat
deriving DecidableEq

/-- The state of one `PieChart` instance; `events` records the events it has
dispatched, oldest first. -/
structure PieChart (α : Type) where
  data : List α
  paths : List (PathEl α)
  lines : List (LineEl α)
  labels : List (LabelEl α)
  donut : String
  events : List CustomEvent
deriving DecidableEq

/-- The attributes of the element as `getAttribute` sees them: `none` is
`null`. -/
structure Attrs where
  data : Option String
  labels : Option String
  colors : Option String
  gap : Option String
  donut : Option String

/-- Splitting a character sequence at every occurrence of `sep`, as
`String.prototype.split` does for a one-character separator. -/
def splitChars (sep : Char) : List Char → List (List Char)
  | [] => [[]]
  | c :: cs =>
    if c = sep then [] :: splitChars sep cs
    else
      match splitChars sep cs with
      | [] => [[c]]
      | w :: ws => (c :: w) :: ws

/-- Source: `str.split(sep)` for a one-character separator. -/
def split (s : String) (sep : Char) : List String :=
  (splitChars sep s.toList).map String.mk

/-- Source: the default value of `colors` in the constructor. -/
def defaultColors : List String :=
  ["#faaa32", "#3efa7d", "#fa6a25", "#0c94fa", "#fa1f19", "#0cfae2", "#00a11e"]

/-- Source: the callback of `this.paths = this.data.map((_, i) => ...)`: the
path of segment `i`.  An index outside the palette reads `undefined`, which
`setAttribute` stores as the text `undefined`. -/
def newPath (colors : List String) (i : Nat) : PathEl α :=
  let color := (colors[i % colors.length]?).getD "undefined"
  { fill := color, d := none }

/-- Source: the callback of `this.lines = this.data.map(() => ...)`. -/
def newLine (gap : String) : LineEl α :=
  { stroke := "#000", strokeWidth := gap, x1 := "0", y1 := "0", x2 := none, y2 := none }

/-- Source: the callback of `this.labels = labels.map((label) => ...)`. -/
def newLabel (label : String) : LabelEl α :=
  { innerText := label, classList := [], top := none, left := none }

/-- Source: the part of `PieChart.constructor` that follows the reading of the
attributes: one path and one line per value, one label per label text. -/
def PieChart.build (data : List α) (labels colors : List String) (gap donut : String) :
    PieChart α :=
  { data := data
    paths := data.mapIdx (fun i _ => newPath colors i)
    lines := data.map (fun _ => newLine gap)
    labels := labels.map newLabel
    donut := donut
    events := [] }

/-- Source: `PieChart.constructor`.  `parseFloat` is the host function of that
name.  The result is `none` when the `data` attribute is absent, where the
script throws on `null.split`. -/
def PieChart.new (parseFloat : String → α) (attrs : Attrs) : Option (PieChart α) :=
  let labels := (attrs.labels.map (fun s => split s ';')).getD []
  let colors := (attrs.colors.map (fun s => split s ';')).getD defaultColors
  match attrs.data with
  | none => none
  | some raw =>
    let data := (split raw ';').map parseFloat
    let gap := attrs.gap.getD "0.015"
    let donut := attrs.donut.getD "0.005"
    some (PieChart.build data labels colors gap donut)

/-- The shape the constructor gives a component and every method keeps: one
path and one line per value. -/
def PieChart.WellFormed (c : PieChart α) : Prop :=
  c.paths.length = c.data.length ∧ c.lines.length = c.data.length

/-- Applying `f` to the element at index `i` when there is one: the effect of
a method call on `xs[i]` guarded by an existence check. -/
def updateAt {β : Type} (xs : List β) (i : Nat) (f : β → β) : List β :=
  match xs[i]? with
  | some x => xs.set i (f x)
  | none => xs

/-- Source: `PieChart.positionLabel(label, angle)`.  The argument `label` is
`this.labels[i]`, given here by its index `i`: it is `undefined` exactly when
`i` is outside `this.labels`.  The test `!angle` is the negated truth value of
the number. -/
def PieChart.positionLabel (M : JsMath α) (c : PieChart α) (i : Nat) (angle : α) : PieChart α :=
  match c.labels[i]? with
  | none => c
  | some label =>
    if !JsNumber.truthy angle then c
    else
      let point := Point.fromAngle M angle
      let positionnement : α := 1
      let label := { label with top := some ((point.y * positionnement * 0.5 + 0.5) * 100) }
      let label := { label with left := some ((point.x * positionnement * 0.5 + 0.5) * 100) }
      { c with labels := c.labels.set i label }

/-- The local variables of `draw` that live across iterations of its
`forEach`, together with the component. -/
structure DrawState (α : Type) where
  chart : PieChart α
  angle : α
  start : Point α

/-- The path data written by `draw`:
`M 0 0 L start A 1 1 0 largeFlag 1  end L 0 0`. -/
def pathData (start : Point α) (largeFlag : α) (stop : Point α) : List (Tok α) :=
  [Tok.cmd "M", Tok.num 0, Tok.num 0, Tok.cmd "L"] ++ start.toSvgPath.map Tok.num ++
    [Tok.cmd "A", Tok.num 1, Tok.num 1, Tok.num 0, Tok.num largeFlag, Tok.num 1] ++
    stop.toSvgPath.map Tok.num ++ [Tok.cmd "L", Tok.num 0, Tok.num 0]

/-- Source: `total` in `draw`, `this.data.reduce((acc, v) => acc + v, 0)`. -/
def total (data : List α) : α :=
  data.foldl (fun acc v => acc + v) 0

/-- Source: `ratio` in `draw`, `(data / total) * progress`. -/
def ratio (total progress data : α) : α :=
  (data / total) * progress

/-- Source: the amount `ratio * 2 * Math.PI` that `draw` adds to `angle` for
one segment: the angular span of the segment. -/
def span (M : JsMath α) (total progress data : α) : α :=
  ratio total progress data * 2 * M.PI

/-- Source: `largeFlag` in `draw`, `ratio > 0.5 ? 1 : 0`. -/
def largeFlag (ratio : α) : α :=
  if JsNumber.lt 0.5 ratio then 1 else 0

/-- Source: the body of the `forEach` callback in `draw`, for the value `data`
at index `i`.  `none` is the `TypeError` of a method call on a missing
`this.lines[i]` or `this.paths[i]`. -/
def drawSegment (M : JsMath α) (total progress : α) (st : DrawState α) (data : α) (i : Nat) :
    Option (DrawState α) :=
  match st.chart.lines[i]? with
  | none => none
  | some line =>
    let line := { line with x2 := some st.start.x }
    let line := { line with y2 := some st.start.y }
    let chart := { st.chart with lines := st.chart.lines.set i line }
    let ratio := Graphiques.ratio total progress data
    let chart :=
      if JsNumber.strictEq progress 1 then chart.positionLabel M i (st.angle + ratio * M.PI)
      else chart
    let angle := st.angle + span M total progress data
    let stop := Point.fromAngle M angle
    let largeFlag := Graphiques.largeFlag ratio
    match chart.paths[i]? with
    | none => none
    | some path =>
      let path := { path with d := some (pathData st.start largeFlag stop) }
      some { chart := { chart with paths := chart.paths.set i path }, angle := angle, start := stop }

/-- Source: `this.data.forEach((data, i) => ...)` in `draw`, over the values
that remain, the first of them at index `i`. -/
def drawLoop (M : JsMath α) (total progress : α) : List α → Nat → DrawState α → Option (DrawState α)
  | [], _, st => some st
  | data :: rest, i, st =>
    match drawSegment M total progress st data i with
    | none => none
    | some st => drawLoop M total progress rest (i + 1) st

/-- Source: `PieChart.draw(progress)` up to the end of its loop, with the
final values of `angle` and `start`. -/
def PieChart.drawState (M : JsMath α) (c : PieChart α) (progress : α) : Option (DrawState α) :=
  let total := Graphiques.total c.data
  let angle := M.PI / -2
  let start : Point α := ⟨0, -1⟩
  drawLoop M total progress c.data 0 { chart := c, angle := angle, start := start }

/-- Source: `PieChart.draw(progress)`. -/
def PieChart.draw (M : JsMath α) (c : PieChart α) (progress : α) : Option (PieChart α) :=
  (c.drawState M progress).map (fun st => st.chart)

/-- Source: `classList.add(name)`. -/
def classListAdd (name : String) (l : LabelEl α) : LabelEl α :=
  { l with classList := if name ∈ l.classList then l.classList else l.classList ++ [name] }

/-- Source: `classList.remove(name)`. -/
def classListRemove (name : String) (l : LabelEl α) : LabelEl α :=
  { l with classList := l.classList.filter (fun s => s ≠ name) }

/-- Whether the label carries the class `is-active`. -/
def LabelEl.isActive (l : LabelEl α) : Bool := decide ("is-active" ∈ l.classList)

/-- Source: `PieChart.handlePathHover(i)`. -/
def PieChart.handlePathHover (c : PieChart α) (i : Nat) : PieChart α :=
  let c := { c with events := c.events ++ [CustomEvent.mk "sectionhover" i] }
  { c with labels := updateAt c.labels i (classListAdd "is-active") }

/-- Source: `PieChart.handlePathOut(i)`. -/
def PieChart.handlePathOut (c : PieChart α) (i : Nat) : PieChart α :=
  { c with labels := updateAt c.labels i (classListRemove "is-active") }

/-- The component once attached: `scheduled` tells whether a
`requestAnimationFrame` callback is pending, `calls` lists the progress values
passed to `draw` so far, oldest first. -/
structure Animation (α : Type) where
  chart : PieChart α
  scheduled : Bool
  calls : List α

/-- Source: `PieChart.connectedCallback`, up to its `requestAnimationFrame`
call; the closure `draw` is `frame` below. -/
def PieChart.connectedCallback (M : JsMath α) (c : PieChart α) : Option (Animation α) :=
  match c.draw M 1 with
  | none => none
  | some c => some { chart := c, scheduled := true, calls := [1] }

/-- Source: the closure `draw` in `connectedCallback`, run as a frame callback
when `Date.now() - now` is `elapsed`. -/
def frame (M : JsMath α) (elapsed : α) (a : Animation α) : Option (Animation α) :=
  let duration : α := 1000
  let t := elapsed / duration
  if JsNumber.lt t 1 then
    match a.chart.draw M (easeOutExpo M t) with
    | none => none
    | some c => some { chart := c, scheduled := true, calls := a.calls ++ [easeOutExpo M t] }
  else
    match a.chart.draw M 1 with
    | none => none
    | some c => some { chart := c, scheduled := false, calls := a.calls ++ [1] }

/-- One display refresh at elapsed time `elapsed`: the pending callback, if
any, runs. -/
def refresh (M : JsMath α) (a : Animation α) (elapsed : α) : Option (Animation α) :=
  if a.scheduled then frame M elapsed a else some a

/-- A sequence of display refreshes at the given elapsed times. -/
def refreshes (M : JsMath α) : List α → Animation α → Option (Animation α)
  | [], a => some a
  | e :: es, a =>
    match refresh M a e with
    | none => none
    | some a => refreshes M es a

/-- The value of the variable `angle` of `draw(progress)` when its loop
reaches segment `i`: `Math.PI / -2`, to which the spans of the segments before
`i` have been added one after the other. -/
def angleAt (M : JsMath α) (data : List α) (progress : α) (i : Nat) : α :=
  (data.take i).foldl (fun angle v => angle + span M (total data) progress v) (M.PI / -2)

/-- The value of the variable `start` of `draw(progress)` when its loop reaches
segment `i`: the point `(0, -1)` at first, then the end point of the segment
before. -/
def startAt (M : JsMath α) (data : List α) (progress : α) (i : Nat) : Point α :=
  if i = 0 then ⟨0, -1⟩ else Point.fromAngle M (angleAt M data progress i)

/-- The angle `angle + ratio * Math.PI` that `draw(progress)` computes for the
label of segment `i`. -/
def labelAngle (M : JsMath α) (data : List α) (progress : α) (i : Nat) : α :=
  angleAt M data progress i + ratio (total data) progress (data.getD i 0) * M.PI

/-- The angle at which the specification starts segment `i` at progress `p`:
`-π/2 + 2π·p·(v_0 + ... + v_{i-1})/T`, with `T` the sum of the values. -/
def startAngle (M : JsMath α) (data : List α) (p : α) (i : Nat) : α :=
  -(M.PI / 2) + 2 * M.PI * p * (data.take i).sum / data.sum

/-- The angle at which the specification ends segment `i` at progress `p`:
`-π/2 + 2π·p·(v_0 + ... + v_i)/T`. -/
def endAngle (M : JsMath α) (data : List α) (p : α) (i : Nat) : α :=
  -(M.PI / 2) + 2 * M.PI * p * (data.take (i + 1)).sum / data.sum

/-- The angular midpoint of the final arc of segment `i` according to the
specification: `-π/2 + 2π·(v_0 + ... + v_{i-1} + v_i/2)/T`. -/
def midAngle (M : JsMath α) (data : List α) (i : Nat) : α :=
  -(M.PI / 2) + 2 * M.PI * ((data.take i).sum + data.getD i 0 / 2) / data.sum

end Model

section ClassList

lemma isActive_add {α : Type} (l : LabelEl α) :
    (classListAdd "is-active" l).isActive = true := by
  unfold LabelEl.isActive classListAdd
  by_cases h : "is-active" ∈ l.classList
  · simp [h]
  · simp [h]

lemma isActive_remove {α : Type} (l : LabelEl α) :
    (classListRemove "is-active" l).isActive = false := by
  unfold LabelEl.isActive classListRemove
  simp

lemma updateAt_self {β : Type} (xs : List β) (i : Nat) (f : β → β) :
    (updateAt xs i f)[i]? = (xs[i]?).map f := by
  unfold updateAt
  cases h : xs[i]? with
  | none => simp [h]
  | some x =>
    have hi : i < xs.length := by
      rcases List.getElem?_eq_some.1 h with ⟨h, -⟩
      exact h
    simp [hi]

lemma updateAt_ne {β : Type} (xs : List β) (i j : Nat) (f : β → β) (h : j ≠ i) :
    (updateAt xs i f)[j]? = xs[j]? := by
  unfold updateAt
  cases xs[i]? with
  | none => rfl
  | some x => simp [List.getElem?_set_ne (Ne.symm h)]

lemma updateAt_none {β : Type} (xs : List β) (i : Nat) (f : β → β) (h : xs[i]? = none) :
    updateAt xs i f = xs := by
  unfold updateAt
  rw [h]

lemma build_wellFormed {α : Type} (data : List α) (labels colors : List String)
    (gap donut : String) : (PieChart.build data labels colors gap donut).WellFormed := by
  simp [PieChart.WellFormed, PieChart.build]

end ClassList

section Lemmas

variable {α : Type} [JsNumber α]

lemma positionLabel_eq (M : JsMath α) (c : PieChart α) (i : Nat) (a : α) :
    c.positionLabel M i a = { c with labels := (c.positionLabel M i a).labels } := by
  unfold PieChart.positionLabel
  split
  · rfl
  · split <;> rfl

lemma positionLabel_labels_congr (M : JsMath α) (c c0 : PieChart α) (i : Nat) (a : α)
    (h : c.labels = c0.labels) :
    (c.positionLabel M i a).labels = (c0.positionLabel M i a).labels := by
  unfold PieChart.positionLabel
  rw [h]
  split
  · exact h
  · split
    · exact h
    · simp only [h]

lemma positionLabel_noop (M : JsMath α) (c : PieChart α) (i : Nat) (a : α)
    (h : c.labels[i]? = none ∨ JsNumber.truthy a = false) : c.positionLabel M i a = c := by
  unfold PieChart.positionLabel
  rcases h with h | h
  · rw [h]
  · split
    · rfl
    · simp [h]

lemma positionLabel_labels_length (M : JsMath α) (c : PieChart α) (i : Nat) (a : α) :
    (c.positionLabel M i a).labels.length = c.labels.length := by
  unfold PieChart.positionLabel
  split
  · rfl
  · split
    · rfl
    · simp

lemma positionLabel_labels_ne (M : JsMath α) (c : PieChart α) (i j : Nat) (a : α) (h : i ≠ j) :
    (c.positionLabel M i a).labels[j]? = c.labels[j]? := by
  unfold PieChart.positionLabel
  split
  · rfl
  · split
    · rfl
    · simp [List.getElem?_set_ne h]

lemma positionLabel_labels_self (M : JsMath α) (c : PieChart α) (i : Nat) (a : α) :
    (c.positionLabel M i a).labels[i]? =
      (c.labels[i]?).map (fun l =>
        if JsNumber.truthy a then
          { l with
            top := some ((M.sin a * 1 * 0.5 + 0.5) * 100)
            left := some ((M.cos a * 1 * 0.5 + 0.5) * 100) }
        else l) := by
  unfold PieChart.positionLabel
  cases hl : c.labels[i]? with
  | none => simp [hl]
  | some l =>
    have hi : i < c.labels.length := by
      rcases List.getElem?_eq_some.1 hl with ⟨h, -⟩
      exact h
    by_cases ha : JsNumber.truthy a = true
    · simp [ha, hl, hi, Point.fromAngle]
    · simp [ha, hl]

lemma drawSegment_eq (M : JsMath α) (total progress : α) (st : DrawState α) (v : α) (i : Nat)
    (line : LineEl α) (path : PathEl α)
    (hl : st.chart.lines[i]? = some line) (hp : st.chart.paths[i]? = some path) :
    drawSegment M total progress st v i = some
      { chart :=
          { st.chart with
            lines := st.chart.lines.set i { line with x2 := some st.start.x, y2 := some st.start.y }
            labels :=
              if JsNumber.strictEq progress 1 then
                (st.chart.positionLabel M i (st.angle + ratio total progress v * M.PI)).labels
              else st.chart.labels
            paths := st.chart.paths.set i
              { path with
                d := some (pathData st.start (largeFlag (ratio total progress v))
                  (Point.fromAngle M (st.angle + span M total progress v))) } }
        angle := st.angle + span M total progress v
        start := Point.fromAngle M (st.angle + span M total progress v) } := by
  unfold drawSegment
  rw [hl]
  by_cases h : JsNumber.strictEq progress 1 = true
  · simp only [h, if_true]
    rw [positionLabel_eq]
    simp only [hp, Option.some.injEq, DrawState.mk.injEq, PieChart.mk.injEq, and_true, true_and]
    exact positionLabel_labels_congr M _ _ i _ rfl
  · simp [h, hp]

lemma drawSegment_inv (M : JsMath α) (total progress : α) (st st1 : DrawState α) (v : α) (i : Nat)
    (h : drawSegment M total progress st v i = some st1) :
    ∃ line path, st.chart.lines[i]? = some line ∧ st.chart.paths[i]? = some path := by
  cases hl : st.chart.lines[i]? with
  | none => simp [drawSegment, hl] at h
  | some line =>
    cases hp : st.chart.paths[i]? with
    | none =>
      exfalso
      unfold drawSegment at h
      rw [hl] at h
      by_cases hprog : JsNumber.strictEq progress 1 = true
      · simp only [hprog, if_true] at h
        rw [positionLabel_eq] at h
        simp [hp] at h
      · simp [hprog, hp] at h
    | some path => exact ⟨line, path, rfl, rfl⟩

lemma drawLoop_cons (M : JsMath α) (total progress : α) (v : α) (rest : List α) (k : Nat)
    (st : DrawState α) :
    drawLoop M total progress (v :: rest) k st =
      (drawSegment M total progress st v k).bind (drawLoop M total progress rest (k + 1)) := by
  rw [drawLoop]
  cases drawSegment M total progress st v k <;> rfl

lemma drawLoop_frame (M : JsMath α) (total progress : α) :
    ∀ (vs : List α) (k : Nat) (st st' : DrawState α),
      drawLoop M total progress vs k st = some st' →
      st'.chart.data = st.chart.data ∧ st'.chart.events = st.chart.events ∧
      st'.chart.donut = st.chart.donut ∧
      st'.chart.lines.length = st.chart.lines.length ∧
      st'.chart.paths.length = st.chart.paths.length ∧
      st'.chart.labels.length = st.chart.labels.length ∧
      ∀ j, j < k ∨ k + vs.length ≤ j →
        st'.chart.lines[j]? = st.chart.lines[j]? ∧ st'.chart.paths[j]? = st.chart.paths[j]? ∧
        st'.chart.labels[j]? = st.chart.labels[j]? := by
  intro vs
  induction vs with
  | nil =>
    intro k st st' h
    simp only [drawLoop, Option.some.injEq] at h
    subst h
    simp
  | cons v rest ih =>
    intro k st st' h
    rw [drawLoop_cons] at h
    cases hseg : drawSegment M total progress st v k with
    | none => simp [hseg] at h
    | some st1 =>
      rw [hseg] at h
      simp only [Option.some_bind] at h
      obtain ⟨line, path, hl, hp⟩ := drawSegment_inv M total progress st st1 v k hseg
      rw [drawSegment_eq M total progress st v k line path hl hp] at hseg
      simp only [Option.some.injEq] at hseg
      obtain ⟨h1, h2, h3, h4, h5, h6, h7⟩ := ih (k + 1) st1 st' h
      subst hseg
      refine ⟨h1, h2, h3, ?_, ?_, ?_, ?_⟩
      · simpa using h4
      · simpa using h5
      · rw [h6]
        simp only
        split
        · exact positionLabel_labels_length M st.chart k _
        · rfl
      · intro j hj
        have hj' : j < k + 1 ∨ k + 1 + rest.length ≤ j := by
          rcases hj with hj | hj
          · left; omega
          · right; simp only [List.length_cons] at hj; omega
        have hne : k ≠ j := by
          rcases hj with hj | hj
          · omega
          · simp only [List.length_cons] at hj; omega
        obtain ⟨g1, g2, g3⟩ := h7 j hj'
        refine ⟨?_, ?_, ?_⟩
        · rw [g1]; simp [List.getElem?_set_ne hne]
        · rw [g2]; simp [List.getElem?_set_ne hne]
        · rw [g3]
          simp only
          split
          · exact positionLabel_labels_ne M st.chart k j _ hne
          · rfl

lemma drawLoop_angle (M : JsMath α) (total progress : α) :
    ∀ (vs : List α) (k : Nat) (st st' : DrawState α),
      drawLoop M total progress vs k st = some st' →
      st'.angle = vs.foldl (fun angle v => angle + span M total progress v) st.angle ∧
      (vs = [] → st'.start = st.start) ∧
      (vs ≠ [] → st'.start = Point.fromAngle M st'.angle) := by
  intro vs
  induction vs with
  | nil =>
    intro k st st' h
    simp only [drawLoop, Option.some.injEq] at h
    subst h
    simp
  | cons v rest ih =>
    intro k st st' h
    rw [drawLoop_cons] at h
    cases hseg : drawSegment M total progress st v k with
    | none => simp [hseg] at h
    | some st1 =>
      rw [hseg] at h
      simp only [Option.some_bind] at h
      obtain ⟨line, path, hl, hp⟩ := drawSegment_inv M total progress st st1 v k hseg
      rw [drawSegment_eq M total progress st v k line path hl hp] at hseg
      simp only [Option.some.injEq] at hseg
      obtain ⟨h1, h2, h3⟩ := ih (k + 1) st1 st' h
      subst hseg
      refine ⟨?_, ?_, ?_⟩
      · rw [h1]
        rfl
      · intro hnil
        exact absurd hnil (List.cons_ne_nil v rest)
      · intro _
        by_cases hr : rest = []
        · rw [h2 hr]
          subst hr
          simp only [drawLoop, Option.some.injEq] at h
          rw [← h]
        · exact h3 hr

lemma drawLoop_isSome (M : JsMath α) (total progress : α) :
    ∀ (vs : List α) (k : Nat) (st : DrawState α),
      k + vs.length ≤ st.chart.lines.length → k + vs.length ≤ st.chart.paths.length →
      ∃ st', drawLoop M total progress vs k st = some st' := by
  intro vs
  induction vs with
  | nil =>
    intro k st _ _
    exact ⟨st, rfl⟩
  | cons v rest ih =>
    intro k st h1 h2
    simp only [List.length_cons] at h1 h2
    have hl : st.chart.lines[k]? = some (st.chart.lines[k]) :=
      List.getElem?_eq_getElem (by omega)
    have hp : st.chart.paths[k]? = some (st.chart.paths[k]) :=
      List.getElem?_eq_getElem (by omega)
    rw [drawLoop_cons, drawSegment_eq M total progress st v k _ _ hl hp]
    simp only [Option.some_bind]
    apply ih
    · simp only [List.length_set]; omega
    · simp only [List.length_set]; omega

lemma drawLoop_append (M : JsMath α) (total progress : α) :
    ∀ (xs ys : List α) (k : Nat) (st : DrawState α),
      drawLoop M total progress (xs ++ ys) k st =
        (drawLoop M total progress xs k st).bind (drawLoop M total progress ys (k + xs.length)) := by
  intro xs
  induction xs with
  | nil =>
    intro ys k st
    simp [drawLoop]
  | cons x xs ih =>
    intro ys k st
    simp only [List.cons_append, List.length_cons]
    rw [drawLoop_cons, drawLoop_cons]
    cases hseg : drawSegment M total progress st x k with
    | none => simp
    | some st1 =>
      simp only [Option.bind_eq_bind, Option.some_bind]
      rw [ih ys (k + 1) st1]
      have : k + 1 + xs.length = k + (xs.length + 1) := by omega
      rw [this]

lemma drawLoop_head (M : JsMath α) (total progress : α) (v : α) (rest : List α) (k : Nat)
    (st st' : DrawState α) (h : drawLoop M total progress (v :: rest) k st = some st') :
    ∃ line path, st.chart.lines[k]? = some line ∧ st.chart.paths[k]? = some path ∧
      st'.chart.lines[k]? = some { line with x2 := some st.start.x, y2 := some st.start.y } ∧
      st'.chart.paths[k]? = some
        { path with
          d := some (pathData st.start (largeFlag (ratio total progress v))
            (Point.fromAngle M (st.angle + span M total progress v))) } ∧
      st'.chart.labels[k]? =
        if JsNumber.strictEq progress 1 then
          (st.chart.positionLabel M k (st.angle + ratio total progress v * M.PI)).labels[k]?
        else st.chart.labels[k]? := by
  rw [drawLoop_cons] at h
  cases hseg : drawSegment M total progress st v k with
  | none => simp [hseg] at h
  | some st1 =>
    rw [hseg] at h
    simp only [Option.some_bind] at h
    obtain ⟨line, path, hl, hp⟩ := drawSegment_inv M total progress st st1 v k hseg
    rw [drawSegment_eq M total progress st v k line path hl hp] at hseg
    simp only [Option.some.injEq] at hseg
    obtain ⟨-, -, -, -, -, -, h7⟩ := drawLoop_frame M total progress rest (k + 1) st1 st' h
    obtain ⟨g1, g2, g3⟩ := h7 k (Or.inl (Nat.lt_succ_self k))
    have hkl : k < st.chart.lines.length := by
      rcases List.getElem?_eq_some.1 hl with ⟨h, -⟩
      exact h
    have hkp : k < st.chart.paths.length := by
      rcases List.getElem?_eq_some.1 hp with ⟨h, -⟩
      exact h
    subst hseg
    refine ⟨line, path, hl, hp, ?_, ?_, ?_⟩
    · rw [g1]; simp [hkl]
    · rw [g2]; simp [hkp]
    · rw [g3]
      simp only
      split <;> rfl

lemma drawLoop_labels_of_ne (M : JsMath α) (total progress : α)
    (hp : JsNumber.strictEq progress 1 = false) :
    ∀ (vs : List α) (k : Nat) (st st' : DrawState α),
      drawLoop M total progress vs k st = some st' → st'.chart.labels = st.chart.labels := by
  intro vs
  induction vs with
  | nil =>
    intro k st st' h
    simp only [drawLoop, Option.some.injEq] at h
    rw [← h]
  | cons v rest ih =>
    intro k st st' h
    rw [drawLoop_cons] at h
    cases hseg : drawSegment M total progress st v k with
    | none => simp [hseg] at h
    | some st1 =>
      rw [hseg] at h
      simp only [Option.some_bind] at h
      obtain ⟨line, path, hl, hq⟩ := drawSegment_inv M total progress st st1 v k hseg
      rw [drawSegment_eq M total progress st v k line path hl hq] at hseg
      simp only [Option.some.injEq] at hseg
      rw [ih (k + 1) st1 st' h, ← hseg]
      simp [hp]

lemma drawLoop_index (M : JsMath α) (total progress : α) (xs : List α) (v : α) (ys : List α)
    (st st' : DrawState α)
    (h : drawLoop M total progress (xs ++ v :: ys) 0 st = some st') :
    ∃ line path, st.chart.lines[xs.length]? = some line ∧
      st.chart.paths[xs.length]? = some path ∧
      st'.chart.lines[xs.length]? = some
        { line with
          x2 := some (if xs.length = 0 then st.start else Point.fromAngle M
            (xs.foldl (fun angle v => angle + span M total progress v) st.angle)).x
          y2 := some (if xs.length = 0 then st.start else Point.fromAngle M
            (xs.foldl (fun angle v => angle + span M total progress v) st.angle)).y } ∧
      st'.chart.paths[xs.length]? = some
        { path with
          d := some (pathData
            (if xs.length = 0 then st.start else Point.fromAngle M
              (xs.foldl (fun angle v => angle + span M total progress v) st.angle))
            (largeFlag (ratio total progress v))
            (Point.fromAngle M
              (xs.foldl (fun angle v => angle + span M total progress v) st.angle +
                span M total progress v))) } ∧
      st'.chart.labels[xs.length]? =
        if JsNumber.strictEq progress 1 then
          (st.chart.positionLabel M xs.length
            (xs.foldl (fun angle v => angle + span M total progress v) st.angle +
              ratio total progress v * M.PI)).labels[xs.length]?
        else st.chart.labels[xs.length]? := by
  rw [drawLoop_append] at h
  cases h1 : drawLoop M total progress xs 0 st with
  | none => simp [h1] at h
  | some st1 =>
    rw [h1] at h
    simp only [Option.some_bind, Nat.zero_add] at h
    obtain ⟨line, path, hl, hp, e1, e2, e3⟩ :=
      drawLoop_head M total progress v ys xs.length st1 st' h
    obtain ⟨-, -, -, -, -, -, f7⟩ := drawLoop_frame M total progress xs 0 st st1 h1
    obtain ⟨f1, f2, f3⟩ := f7 xs.length (Or.inr (by omega))
    obtain ⟨a1, a2, a3⟩ := drawLoop_angle M total progress xs 0 st st1 h1
    have hstart : st1.start = if xs.length = 0 then st.start else Point.fromAngle M
        (xs.foldl (fun angle v => angle + span M total progress v) st.angle) := by
      by_cases hx : xs.length = 0
      · rw [if_pos hx]; exact a2 (List.length_eq_zero.1 hx)
      · rw [if_neg hx, a3 (fun h0 => hx (List.length_eq_zero.2 h0)), a1]
    refine ⟨line, path, f1 ▸ hl, f2 ▸ hp, ?_, ?_, ?_⟩
    · rw [e1, hstart]
    · rw [e2, hstart, a1]
    · rw [e3]
      by_cases hprog : JsNumber.strictEq progress 1 = true
      · rw [if_pos hprog, if_pos hprog, positionLabel_labels_self, positionLabel_labels_self, f3, a1]
      · rw [if_neg hprog, if_neg hprog, f3]

lemma angleAt_succ (M : JsMath α) (data : List α) (p : α) (i : Nat) (hi : i < data.length) :
    angleAt M data p (i + 1) = angleAt M data p i + span M (total data) p data[i] := by
  unfold angleAt
  rw [List.take_succ, List.getElem?_eq_getElem hi, List.foldl_append]
  rfl

lemma drawState_isSome (M : JsMath α) (c : PieChart α) (hwf : c.WellFormed) (p : α) :
    ∃ st, c.drawState M p = some st := by
  unfold PieChart.drawState
  apply drawLoop_isSome
  · simp only [Nat.zero_add]; exact le_of_eq hwf.2.symm
  · simp only [Nat.zero_add]; exact le_of_eq hwf.1.symm

lemma drawState_final (M : JsMath α) (c : PieChart α) (p : α) (st : DrawState α)
    (h : c.drawState M p = some st) :
    st.angle = angleAt M c.data p c.data.length ∧
    st.start = startAt M c.data p c.data.length := by
  unfold PieChart.drawState at h
  obtain ⟨a1, a2, a3⟩ := drawLoop_angle M _ _ _ _ _ _ h
  have ha : st.angle = angleAt M c.data p c.data.length := by
    rw [a1]
    unfold angleAt
    rw [List.take_length]
  refine ⟨ha, ?_⟩
  unfold startAt
  by_cases hd : c.data = []
  · rw [a2 hd, hd]
    rfl
  · have hlen : c.data.length ≠ 0 := fun h0 => hd (List.length_eq_zero.1 h0)
    rw [if_neg hlen, a3 hd, ha]

lemma drawState_index (M : JsMath α) (c : PieChart α) (p : α) (i : Nat) (hi : i < c.data.length)
    (st : DrawState α) (h : c.drawState M p = some st) :
    ∃ line path, c.lines[i]? = some line ∧ c.paths[i]? = some path ∧
      st.chart.lines[i]? = some
        { line with
          x2 := some (startAt M c.data p i).x
          y2 := some (startAt M c.data p i).y } ∧
      st.chart.paths[i]? = some
        { path with
          d := some (pathData (startAt M c.data p i)
            (largeFlag (ratio (total c.data) p c.data[i]))
            (Point.fromAngle M (angleAt M c.data p (i + 1)))) } ∧
      st.chart.labels[i]? =
        if JsNumber.strictEq p 1 then
          (c.positionLabel M i (labelAngle M c.data p i)).labels[i]?
        else c.labels[i]? := by
  have hsplit : c.data.take i ++ c.data[i] :: c.data.drop (i + 1) = c.data := by
    rw [List.getElem_cons_drop, List.take_append_drop]
  have hlen : (c.data.take i).length = i := by
    rw [List.length_take]; omega
  unfold PieChart.drawState at h
  have h' : drawLoop M (total c.data) p (c.data.take i ++ c.data[i] :: c.data.drop (i + 1)) 0
      { chart := c, angle := M.PI / -2, start := ⟨0, -1⟩ } = some st := by
    rw [hsplit]; exact h
  obtain ⟨line, path, hl, hp, e1, e2, e3⟩ := drawLoop_index M (total c.data) p _ _ _ _ _ h'
  rw [hlen] at hl hp e1 e2 e3
  have hS : (if i = 0 then (⟨0, -1⟩ : Point α) else
      Point.fromAngle M ((c.data.take i).foldl
        (fun angle v => angle + span M (total c.data) p v) (M.PI / -2))) =
      startAt M c.data p i := rfl
  have hE : (c.data.take i).foldl (fun angle v => angle + span M (total c.data) p v) (M.PI / -2) +
      span M (total c.data) p c.data[i] = angleAt M c.data p (i + 1) := by
    rw [angleAt_succ M c.data p i hi]
    rfl
  have hL : (c.data.take i).foldl (fun angle v => angle + span M (total c.data) p v) (M.PI / -2) +
      ratio (total c.data) p c.data[i] * M.PI = labelAngle M c.data p i := by
    unfold labelAngle angleAt
    rw [List.getD_eq_getElem _ _ hi]
  simp only at e1 e2 e3
  rw [hS] at e1 e2
  rw [hE] at e2
  rw [hL] at e3
  exact ⟨line, path, hl, hp, e1, e2, e3⟩

lemma draw_index (M : JsMath α) (c : PieChart α) (hwf : c.WellFormed) (p : α) :
    ∃ c', c.draw M p = some c' ∧ c'.WellFormed ∧
      (JsNumber.strictEq p 1 = false → c'.labels = c.labels) ∧
      ∀ i (hi : i < c.data.length),
        (c'.paths[i]?).bind (fun q => q.d) = some
          (pathData (startAt M c.data p i) (largeFlag (ratio (total c.data) p c.data[i]))
            (Point.fromAngle M (angleAt M c.data p (i + 1)))) ∧
        (c'.lines[i]?).map (fun l => (l.x2, l.y2)) =
          some (some (startAt M c.data p i).x, some (startAt M c.data p i).y) ∧
        c'.labels[i]? =
          if JsNumber.strictEq p 1 then
            (c.positionLabel M i (labelAngle M c.data p i)).labels[i]?
          else c.labels[i]? := by
  obtain ⟨st, hst⟩ := drawState_isSome M c hwf p
  have hfr := hst
  unfold PieChart.drawState at hfr
  obtain ⟨h1, -, -, h4, h5, -, -⟩ := drawLoop_frame M _ _ _ _ _ _ hfr
  simp only at h1 h4 h5
  refine ⟨st.chart, by simp [PieChart.draw, hst],
    ⟨by rw [h5, h1]; exact hwf.1, by rw [h4, h1]; exact hwf.2⟩, ?_, ?_⟩
  · intro hp
    exact drawLoop_labels_of_ne M _ p hp _ _ _ _ hfr
  · intro i hi
    obtain ⟨line, path, -, -, e1, e2, e3⟩ := drawState_index M c p i hi st hst
    refine ⟨?_, ?_, e3⟩
    · rw [e2]; rfl
    · rw [e1]; rfl

lemma draw_isSome (M : JsMath α) (c : PieChart α) (hwf : c.WellFormed) (p : α) :
    ∃ c', c.draw M p = some c' ∧ c'.WellFormed := by
  obtain ⟨c', h1, h2, -⟩ := draw_index M c hwf p
  exact ⟨c', h1, h2⟩

lemma refreshes_stopped (M : JsMath α) (es : List α) (a : Animation α)
    (h : a.scheduled = false) : refreshes M es a = some a := by
  induction es with
  | nil => rfl
  | cons e es ih =>
    unfold refreshes
    simp only [refresh, h, Bool.false_eq_true, if_false]
    exact ih

end Lemmas

section RealLemmas

lemma real_strictEq (a b : ℝ) : JsNumber.strictEq a b = decide (a = b) := rfl

lemma real_lt (a b : ℝ) : JsNumber.lt a b = decide (a < b) := rfl

lemma real_truthy (a : ℝ) : JsNumber.truthy a = decide (a ≠ 0) := rfl

lemma foldl_add_map (f : ℝ → ℝ) (l : List ℝ) :
    ∀ a : ℝ, l.foldl (fun acc v => acc + f v) a = a + (l.map f).sum := by
  induction l with
  | nil => intro a; simp
  | cons x xs ih =>
    intro a
    simp only [List.foldl_cons, List.map_cons, List.sum_cons, ih]
    ring

lemma total_eq_sum (l : List ℝ) : total l = l.sum := by
  unfold total
  have h := foldl_add_map (fun v => v) l 0
  simpa using h

lemma sum_map_span (T p : ℝ) (l : List ℝ) :
    (l.map (span realMath T p)).sum = l.sum / T * p * 2 * Real.pi := by
  induction l with
  | nil => simp
  | cons x xs ih =>
    simp only [List.map_cons, List.sum_cons, ih]
    simp only [span, ratio, realMath]
    ring

lemma angleAt_real (data : List ℝ) (p : ℝ) (i : Nat) :
    angleAt realMath data p i = startAngle realMath data p i := by
  unfold angleAt startAngle
  rw [foldl_add_map, sum_map_span, total_eq_sum]
  simp only [realMath]
  ring

lemma angleAt_succ_real (data : List ℝ) (p : ℝ) (i : Nat) :
    angleAt realMath data p (i + 1) = endAngle realMath data p i :=
  angleAt_real data p (i + 1)

lemma startAt_real (data : List ℝ) (p : ℝ) (i : Nat) :
    startAt realMath data p i = Point.fromAngle realMath (startAngle realMath data p i) := by
  unfold startAt
  by_cases h0 : i = 0
  · subst h0
    simp [startAngle, Point.fromAngle, realMath]
  · rw [if_neg h0, angleAt_real]

lemma labelAngle_real (data : List ℝ) (i : Nat) (hi : i < data.length) :
    labelAngle realMath data 1 i = midAngle realMath data i := by
  unfold labelAngle
  rw [angleAt_real]
  unfold startAngle midAngle ratio
  rw [List.getD_eq_getElem _ _ hi, total_eq_sum]
  simp only [realMath]
  ring

lemma draw_index_real (c : PieChart ℝ) (hwf : c.WellFormed) (p : ℝ) :
    ∃ c', c.draw realMath p = some c' ∧ (p ≠ 1 → c'.labels = c.labels) ∧
      ∀ i (hi : i < c.data.length),
        (c'.paths[i]?).bind (fun q => q.d) = some
          (pathData (Point.fromAngle realMath (startAngle realMath c.data p i))
            (largeFlag (ratio c.data.sum p c.data[i]))
            (Point.fromAngle realMath (endAngle realMath c.data p i))) ∧
        (c'.lines[i]?).map (fun l => (l.x2, l.y2)) =
          some (some (Real.cos (startAngle realMath c.data p i)),
            some (Real.sin (startAngle realMath c.data p i))) ∧
        (p = 1 → c'.labels[i]? =
          (c.positionLabel realMath i (midAngle realMath c.data i)).labels[i]?) := by
  obtain ⟨c', h1, -, h3, h4⟩ := draw_index realMath c hwf p
  refine ⟨c', h1, ?_, ?_⟩
  · intro hp
    apply h3
    rw [real_strictEq]
    simp [hp]
  · intro i hi
    obtain ⟨e1, e2, e3⟩ := h4 i hi
    rw [startAt_real, angleAt_succ_real, total_eq_sum] at e1
    rw [startAt_real] at e2
    refine ⟨e1, e2, ?_⟩
    intro hp
    subst hp
    rw [e3, real_strictEq]
    simp only [decide_True, if_true]
    rw [labelAngle_real c.data i hi]

lemma positionLabel_real_self (c : PieChart ℝ) (i : Nat) (a : ℝ) (l : LabelEl ℝ)
    (hl : c.labels[i]? = some l) (ha : a ≠ 0) :
    (c.positionLabel realMath i a).labels[i]? = some
      { l with
        top := some ((Real.sin a * 0.5 + 0.5) * 100)
        left := some ((Real.cos a * 0.5 + 0.5) * 100) } := by
  rw [positionLabel_labels_self, hl, real_truthy]
  simp only [Option.map_some', ha, ne_eq, not_false_eq_true, decide_True, if_true, mul_one]
  rfl

lemma largeFlag_real (x : ℝ) : largeFlag x = if x > 0.5 then 1 else 0 := by
  unfold largeFlag
  rw [real_lt]
  by_cases h : (0.5 : ℝ) < x
  · simp [h]
  · simp [h]

lemma easeOutExpo_range (t : ℝ) (h0 : 0 ≤ t) (h1 : t < 1) :
    0 ≤ easeOutExpo realMath t ∧ easeOutExpo realMath t < 1 := by
  have hne : t ≠ 1 := ne_of_lt h1
  have hpos : (0 : ℝ) < (2 : ℝ) ^ (-10 * t) := Real.rpow_pos_of_pos (by norm_num) _
  have hle : (2 : ℝ) ^ (-10 * t) ≤ 1 :=
    Real.rpow_le_one_of_one_le_of_nonpos (by norm_num) (by linarith)
  have he : easeOutExpo realMath t = 1 - (2 : ℝ) ^ (-10 * t) := by
    simp only [easeOutExpo, real_strictEq, hne, decide_False, realMath]
    rfl
  rw [he]
  constructor <;> linarith

lemma fromAngle_top : Point.fromAngle realMath (-(Real.pi / 2)) = ⟨0, -1⟩ := by
  simp [Point.fromAngle, realMath]

lemma fromAngle_full_turn : Point.fromAngle realMath (-(Real.pi / 2) + 2 * Real.pi) = ⟨0, -1⟩ := by
  simp [Point.fromAngle, realMath, Real.cos_add_two_pi, Real.sin_add_two_pi]

lemma endAngle_last (data : List ℝ) (hT : data.sum ≠ 0) :
    endAngle realMath data 1 (data.length - 1) = -(Real.pi / 2) + 2 * Real.pi := by
  have hpos : 0 < data.length := by
    rcases Nat.eq_zero_or_pos data.length with h | h
    · rw [List.length_eq_zero] at h
      subst h
      simp at hT
    · exact h
  unfold endAngle
  rw [Nat.sub_add_cancel hpos, List.take_length]
  simp only [realMath]
  field_simp

end RealLemmas

section BinaryLemmas

lemma span_f64 (cos sin : F64 → F64) (pow : F64 → F64 → F64) (T p v : F64) :
    span (f64Math cos sin pow) T p v =
      span (f64Math (fun x => x) (fun x => x) (fun x _ => x)) T p v := rfl

lemma angleAt_f64 (cos sin : F64 → F64) (pow : F64 → F64 → F64) (data : List F64) (p : F64)
    (i : Nat) :
    angleAt (f64Math cos sin pow) data p i =
      angleAt (f64Math (fun x => x) (fun x => x) (fun x _ => x)) data p i := rfl

lemma labelAngle_f64 (cos sin : F64 → F64) (pow : F64 → F64 → F64) (data : List F64) (p : F64)
    (i : Nat) :
    labelAngle (f64Math cos sin pow) data p i =
      labelAngle (f64Math (fun x => x) (fun x => x) (fun x _ => x)) data p i := rfl

lemma startAngle_f64 (cos sin : F64 → F64) (pow : F64 → F64 → F64) (data : List F64) (p : F64)
    (i : Nat) :
    startAngle (f64Math cos sin pow) data p i =
      startAngle (f64Math (fun x => x) (fun x => x) (fun x _ => x)) data p i := rfl

lemma f64_strictEq_one : JsNumber.strictEq (1 : F64) 1 = true := by decide

lemma f64_add_def (x y : F64) : x + y = F64.add x y := rfl

lemma f64_div_def (x y : F64) : x / y = F64.div x y := rfl

lemma f64_mul_def (x y : F64) : x * y = F64.mul x y := rfl

lemma f64_zero_def : (0 : F64) = F64.fin false 0 := rfl

lemma f64_one_def : (1 : F64) = F64.ofNat 1 := rfl

lemma f64_total_single (n : Nat) (h : F64.roundAt false n 0 = F64.fin false n) :
    total [F64.fin false n] = F64.fin false n := by
  unfold total
  rw [List.foldl_cons, List.foldl_nil, f64_add_def, f64_zero_def]
  simp only [F64.add, if_true, Nat.zero_add]
  exact h

lemma f64_div_self (n : Nat) (hn : n ≠ 0) : F64.fin false n / F64.fin false n = 1 := by
  have hpos : 0 < n := Nat.pos_of_ne_zero hn
  have hq : (n <<< 1075) / n = 1 <<< 1075 := by
    rw [Nat.shiftLeft_eq, Nat.one_shiftLeft, Nat.mul_div_cancel_left _ hpos]
  have hr : (n <<< 1075) % n = 0 := by
    rw [Nat.shiftLeft_eq, Nat.mul_mod_right]
  rw [f64_div_def]
  simp only [F64.div, hn, if_false, F64.roundRatio, hq, hr, if_true]
  decide

lemma f64_ratio_single (n : Nat) (hn : n ≠ 0)
    (h : F64.roundAt false n 0 = F64.fin false n) :
    ratio (total [F64.fin false n]) 1 (F64.fin false n) = 1 := by
  rw [f64_total_single n h]
  unfold ratio
  rw [f64_div_self n hn]
  decide

lemma toRat_ne_zero (x : F64) (h1 : x.isFinite = true) (h2 : F64.truthy x = true) :
    x.toRat ≠ 0 := by
  cases x with
  | fin s n =>
    have hn : n ≠ 0 := by simpa [F64.truthy] using h2
    have hq : (n : ℚ) ≠ 0 := Nat.cast_ne_zero.2 hn
    simp only [F64.toRat]
    have h2 : ((2 : ℚ) ^ 1074) ≠ 0 := pow_ne_zero _ (by norm_num)
    cases s <;> simp [hq, h2]
  | inf s => simp [F64.isFinite] at h1
  | nan => simp [F64.isFinite] at h1

end BinaryLemmas

section Claims

/-- C1, as stated, fails in the arithmetic of the script, binary64: for the
values 1, 4, 1 the spans that `draw(1)` adds to the running angle sum to
`6.283185307179585`, not to `2 * Math.PI = 6.283185307179586`, and the running
angle ends at `4.712388980384689`, not at
`Math.PI / -2 + 2 * Math.PI = 4.71238898038469`; the end point of the last
segment is taken at that angle.  This holds whatever `Math.cos`, `Math.sin`
and `Math.pow` compute. -/
theorem draw_one_four_one_not_full_turn :
    (2 * F64.PI = 6.283185307179586 ∧ F64.PI / -2 + 2 * F64.PI = 4.71238898038469 ∧
      (6.283185307179585 : F64) ≠ 6.283185307179586 ∧
      (4.712388980384689 : F64) ≠ 4.71238898038469) ∧
    ∀ (cos sin : F64 → F64) (pow : F64 → F64 → F64),
      (([1, 4, 1] : List F64).map (span (f64Math cos sin pow) (total [1, 4, 1]) 1)).foldl
        (fun a s => a + s) 0 = 6.283185307179585 ∧
      ∃ st, (PieChart.build ([1, 4, 1] : List F64) [] defaultColors "0.015" "0.005").drawState
          (f64Math cos sin pow) 1 = some st ∧
        st.angle = 4.712388980384689 ∧
        st.start = Point.fromAngle (f64Math cos sin pow) 4.712388980384689 := by
  refine ⟨⟨by decide, by decide, by decide, by decide⟩, ?_⟩
  intro cos sin pow
  obtain ⟨st, hst⟩ := drawState_isSome (f64Math cos sin pow)
    (PieChart.build ([1, 4, 1] : List F64) [] defaultColors "0.015" "0.005")
    (build_wellFormed _ _ _ _ _) 1
  obtain ⟨ha, hs⟩ := drawState_final _ _ _ _ hst
  have hangle : st.angle = 4.712388980384689 := by
    rw [ha, angleAt_f64]
    decide
  refine ⟨?_, st, hst, hangle, ?_⟩
  · have h : span (f64Math cos sin pow) (total [1, 4, 1]) 1 =
        span (f64Math (fun x => x) (fun x => x) (fun x _ => x)) (total [1, 4, 1]) 1 := by
      funext v
      exact span_f64 cos sin pow _ _ v
    rw [h]
    decide
  · rw [hs]
    unfold startAt
    rw [← ha, hangle]
    rfl

/-- C1, amended: in every arithmetic, that of the script included, `draw(1)`
succeeds and ends with the running angle `Math.PI / -2` to which the spans
`ratio * 2 * Math.PI` of the segments have been added one after the other;
when there is a segment, line 0 starts at `(0, -1)`, and the end point of the
last segment, also the final value of `start`, is the point that
`Point.fromAngle` gives at that angle.  In exact arithmetic with a total
`T > 0` the spans sum to exactly `2π`, the running angle ends at `-π/2 + 2π`
and that end point is `(0, -1)`. -/
theorem draw_running_angle {α : Type} [JsNumber α] (M : JsMath α) (c : PieChart α)
    (hwf : c.WellFormed) :
    (∃ st, c.drawState M 1 = some st ∧
      st.angle = (c.data.map (span M (total c.data) 1)).foldl (fun angle s => angle + s)
        (M.PI / -2) ∧
      (c.data ≠ [] →
        st.start = Point.fromAngle M st.angle ∧
        (st.chart.lines[0]?).map (fun l => (l.x2, l.y2)) = some (some (0 : α), some (-1 : α)) ∧
        ∃ sx sy flag, (st.chart.paths[c.data.length - 1]?).bind (fun q => q.d) = some
          [Tok.cmd "M", Tok.num 0, Tok.num 0, Tok.cmd "L", Tok.num sx, Tok.num sy,
            Tok.cmd "A", Tok.num 1, Tok.num 1, Tok.num 0, Tok.num flag, Tok.num 1,
            Tok.num (M.cos st.angle), Tok.num (M.sin st.angle),
            Tok.cmd "L", Tok.num 0, Tok.num 0])) ∧
    (∀ cr : PieChart ℝ, cr.WellFormed → 0 < cr.data.sum →
      (cr.data.map (span realMath (total cr.data) 1)).sum = 2 * Real.pi ∧
      ∃ st, cr.drawState realMath 1 = some st ∧
        st.angle = -(Real.pi / 2) + 2 * Real.pi ∧
        st.start = ⟨0, -1⟩ ∧
        (st.chart.lines[0]?).map (fun l => (l.x2, l.y2)) = some (some (0 : ℝ), some (-1 : ℝ)) ∧
        ∃ sx sy flag, (st.chart.paths[cr.data.length - 1]?).bind (fun q => q.d) = some
          [Tok.cmd "M", Tok.num 0, Tok.num 0, Tok.cmd "L", Tok.num sx, Tok.num sy,
            Tok.cmd "A", Tok.num 1, Tok.num 1, Tok.num 0, Tok.num flag, Tok.num 1,
            Tok.num (0 : ℝ), Tok.num (-1 : ℝ), Tok.cmd "L", Tok.num 0, Tok.num 0]) := by
  have hgen : ∀ {β : Type} [JsNumber β] (N : JsMath β) (b : PieChart β), b.WellFormed →
      ∃ st, b.drawState N 1 = some st ∧
        st.angle = angleAt N b.data 1 b.data.length ∧
        (b.data ≠ [] →
          st.start = Point.fromAngle N st.angle ∧
          (st.chart.lines[0]?).map (fun l => (l.x2, l.y2)) =
            some (some (0 : β), some (-1 : β)) ∧
          ∃ sx sy flag, (st.chart.paths[b.data.length - 1]?).bind (fun q => q.d) = some
            [Tok.cmd "M", Tok.num 0, Tok.num 0, Tok.cmd "L", Tok.num sx, Tok.num sy,
              Tok.cmd "A", Tok.num 1, Tok.num 1, Tok.num 0, Tok.num flag, Tok.num 1,
              Tok.num (N.cos st.angle), Tok.num (N.sin st.angle),
              Tok.cmd "L", Tok.num 0, Tok.num 0]) := by
    intro β _ N b hb
    obtain ⟨st, hst⟩ := drawState_isSome N b hb 1
    obtain ⟨ha, hs⟩ := drawState_final N b 1 st hst
    refine ⟨st, hst, ha, ?_⟩
    intro hne
    have hpos : 0 < b.data.length := List.length_pos.2 hne
    have hlen : b.data.length ≠ 0 := Nat.pos_iff_ne_zero.1 hpos
    refine ⟨?_, ?_, ?_⟩
    · rw [hs, ha]
      unfold startAt
      rw [if_neg hlen]
    · obtain ⟨line, path, -, -, e1, -, -⟩ := drawState_index N b 1 0 hpos st hst
      rw [e1]
      rfl
    · obtain ⟨line, path, -, -, -, e2, -⟩ :=
        drawState_index N b 1 (b.data.length - 1) (by omega) st hst
      refine ⟨(startAt N b.data 1 (b.data.length - 1)).x,
        (startAt N b.data 1 (b.data.length - 1)).y,
        largeFlag (ratio (total b.data) 1 b.data[b.data.length - 1]), ?_⟩
      rw [e2, Nat.sub_add_cancel hpos, ← ha]
      rfl
  refine ⟨?_, ?_⟩
  · obtain ⟨st, hst, ha, hrest⟩ := hgen M c hwf
    refine ⟨st, hst, ?_, hrest⟩
    rw [ha]
    unfold angleAt
    rw [List.take_length, List.foldl_map]
  · intro cr hwfr hT
    have hT0 : cr.data.sum ≠ 0 := ne_of_gt hT
    have hne : cr.data ≠ [] := by
      intro h
      rw [h] at hT
      simp at hT
    have hsum : (cr.data.map (span realMath (total cr.data) 1)).sum = 2 * Real.pi := by
      rw [sum_map_span, total_eq_sum]
      field_simp
    obtain ⟨st, hst, ha, hrest⟩ := hgen realMath cr hwfr
    obtain ⟨h1, h2, sx, sy, flag, h3⟩ := hrest hne
    have hang : st.angle = -(Real.pi / 2) + 2 * Real.pi := by
      have hpos : 0 < cr.data.length := List.length_pos.2 hne
      have := angleAt_succ_real cr.data 1 (cr.data.length - 1)
      rw [Nat.sub_add_cancel hpos] at this
      rw [ha, this, endAngle_last cr.data hT0]
    have hpt : Point.fromAngle realMath st.angle = ⟨0, -1⟩ := by
      rw [hang, fromAngle_full_turn]
    have hcos : realMath.cos st.angle = 0 := congrArg Point.x hpt
    have hsin : realMath.sin st.angle = -1 := congrArg Point.y hpt
    refine ⟨hsum, st, hst, hang, by rw [h1, hpt], h2, sx, sy, flag, ?_⟩
    rw [h3, hcos, hsin]

/-- The witness of `draw_running_angle`: the components built from the values
1, 4, 1 in binary64 and from 1, 1, 2 in exact arithmetic. -/
theorem draw_running_angle_witness :
    (PieChart.build ([1, 4, 1] : List F64) [] defaultColors "0.015" "0.005").WellFormed ∧
    ∀ (cos sin : F64 → F64) (pow : F64 → F64 → F64),
      (∃ st, (PieChart.build ([1, 4, 1] : List F64) [] defaultColors "0.015" "0.005").drawState
          (f64Math cos sin pow) 1 = some st ∧
        st.angle = (([1, 4, 1] : List F64).map (span (f64Math cos sin pow)
          (total [1, 4, 1]) 1)).foldl (fun angle s => angle + s) (F64.PI / -2)) ∧
      ∃ st, (PieChart.build ([1, 1, 2] : List ℝ) [] defaultColors "0.015" "0.005").drawState
          realMath 1 = some st ∧
        st.angle = -(Real.pi / 2) + 2 * Real.pi ∧ st.start = ⟨0, -1⟩ := by
  refine ⟨build_wellFormed _ _ _ _ _, ?_⟩
  intro cos sin pow
  have h := draw_running_angle (f64Math cos sin pow)
    (PieChart.build ([1, 4, 1] : List F64) [] defaultColors "0.015" "0.005")
    (build_wellFormed _ _ _ _ _)
  obtain ⟨⟨st, h1, h2, -⟩, hr⟩ := h
  obtain ⟨-, st', g1, g2, g3, -⟩ :=
    hr (PieChart.build ([1, 1, 2] : List ℝ) [] defaultColors "0.015" "0.005")
      (build_wellFormed _ _ _ _ _) (by norm_num [PieChart.build])
  exact ⟨⟨st, h1, h2⟩, st', g1, g2, g3⟩

/-- C2, as stated, fails in the arithmetic of the script, binary64.  For the
values 1, 4, 1 at progress 1, `draw` takes the start point of segment 2 at the
running angle `3.6651914291880914`, while the closed form
`-π/2 + 2π·p·(v_0+v_1)/T` computed in binary64 is `3.6651914291880923`.  For
the values 1e308, 1e308 the total overflows to `Infinity`, every ratio and
every span is 0 where `(v_0/T)·p·2π` is `π`, and segment 1 starts at the angle
`Math.PI / -2` of the top.  This holds whatever `Math.cos`, `Math.sin` and
`Math.pow` compute. -/
theorem draw_start_angle_not_closed_form :
    (3.6651914291880914 : F64) ≠ 3.6651914291880923 ∧
    (∀ (cos sin : F64 → F64) (pow : F64 → F64 → F64),
      startAngle (f64Math cos sin pow) [1, 4, 1] 1 2 = 3.6651914291880923 ∧
      ∃ c', (PieChart.build ([1, 4, 1] : List F64) [] defaultColors "0.015" "0.005").draw
          (f64Math cos sin pow) 1 = some c' ∧
        (c'.lines[2]?).map (fun l => (l.x2, l.y2)) =
          some (some (cos 3.6651914291880914), some (sin 3.6651914291880914))) ∧
    total ([1e308, 1e308] : List F64) = F64.inf false ∧
    ((F64.toRat 1e308 : ℝ) / ((F64.toRat 1e308 : ℝ) + (F64.toRat 1e308 : ℝ)) * 1 *
      (2 * Real.pi) = Real.pi ∧ Real.pi ≠ 0) ∧
    ∀ (cos sin : F64 → F64) (pow : F64 → F64 → F64),
      span (f64Math cos sin pow) (total [1e308, 1e308]) 1 1e308 = 0 ∧
      ∃ c', (PieChart.build ([1e308, 1e308] : List F64) [] defaultColors "0.015" "0.005").draw
          (f64Math cos sin pow) 1 = some c' ∧
        (c'.lines[1]?).map (fun l => (l.x2, l.y2)) =
          some (some (cos (F64.PI / -2)), some (sin (F64.PI / -2))) := by
  refine ⟨by decide, ?_, by decide, ?_, ?_⟩
  · intro cos sin pow
    refine ⟨by rw [startAngle_f64]; decide, ?_⟩
    obtain ⟨c', h1, -, -, h4⟩ := draw_index (f64Math cos sin pow)
      (PieChart.build ([1, 4, 1] : List F64) [] defaultColors "0.015" "0.005")
      (build_wellFormed _ _ _ _ _) 1
    refine ⟨c', h1, ?_⟩
    obtain ⟨-, e2, -⟩ := h4 2 (by simp [PieChart.build])
    rw [e2]
    have ha : angleAt (f64Math cos sin pow)
        (PieChart.build ([1, 4, 1] : List F64) [] defaultColors "0.015" "0.005").data 1 2 =
        3.6651914291880914 := by
      rw [angleAt_f64]
      decide
    unfold startAt
    rw [if_neg (by decide), ha]
    rfl
  · have hx : ((F64.toRat 1e308 : ℚ) : ℝ) ≠ 0 := by
      have := toRat_ne_zero 1e308 (by decide) (by decide)
      exact_mod_cast this
    refine ⟨?_, Real.pi_ne_zero⟩
    generalize ((F64.toRat 1e308 : ℚ) : ℝ) = x at hx
    have h2 : x / (x + x) = 1 / 2 := by
      rw [div_eq_iff (by intro h; apply hx; linarith)]
      ring
    rw [h2]
    ring
  · intro cos sin pow
    refine ⟨by rw [span_f64]; decide, ?_⟩
    obtain ⟨c', h1, -, -, h4⟩ := draw_index (f64Math cos sin pow)
      (PieChart.build ([1e308, 1e308] : List F64) [] defaultColors "0.015" "0.005")
      (build_wellFormed _ _ _ _ _) 1
    refine ⟨c', h1, ?_⟩
    obtain ⟨-, e2, -⟩ := h4 1 (by simp [PieChart.build])
    rw [e2]
    have ha : angleAt (f64Math cos sin pow)
        (PieChart.build ([1e308, 1e308] : List F64) [] defaultColors "0.015" "0.005").data 1 1 =
        F64.PI / -2 := by
      rw [angleAt_f64]
      decide
    unfold startAt
    rw [if_neg (by decide), ha]
    rfl

/-- C2, amended: in every arithmetic, that of the script included, `draw(p)`
succeeds, sets the path of every segment `i` to `M 0 0 L start_i A 1 1 0 flag 1
end_i L 0 0` and the outer endpoint of separator line `i` to `start_i`, where
`start_0 = (0, -1)`, `end_i` is the point that `Point.fromAngle` gives at the
running angle after segment `i`, `start_{i+1} = end_i`, and the running angle
starts at `Math.PI / -2` and grows by the span `(v_i / total) * p * 2 * Math.PI`
at segment `i`, each operation rounded as the arithmetic rounds it.  In
binary64 the spans for 1, 1, 2 at progress 1 are a quarter turn, a quarter
turn and a half turn of `Math.PI`.  In exact arithmetic with a total `T > 0`
the running angles are the closed forms `-π/2 + 2π·p·(v_0+...+v_{i-1})/T` and
`-π/2 + 2π·p·(v_0+...+v_i)/T`, the span of segment `i` is `(v_i/T)·p·2π`, and
`start_0` is the unit-circle point at `-π/2`. -/
theorem draw_segment_geometry {α : Type} [JsNumber α] (M : JsMath α) (c : PieChart α)
    (hwf : c.WellFormed) (p : α) :
    (∃ c', c.draw M p = some c' ∧ ∀ i, i < c.data.length →
      (∃ flag, (c'.paths[i]?).bind (fun q => q.d) = some
        [Tok.cmd "M", Tok.num 0, Tok.num 0,
          Tok.cmd "L", Tok.num (startAt M c.data p i).x, Tok.num (startAt M c.data p i).y,
          Tok.cmd "A", Tok.num 1, Tok.num 1, Tok.num 0, Tok.num flag, Tok.num 1,
          Tok.num (M.cos (angleAt M c.data p (i + 1))),
          Tok.num (M.sin (angleAt M c.data p (i + 1))),
          Tok.cmd "L", Tok.num 0, Tok.num 0]) ∧
      (c'.lines[i]?).map (fun l => (l.x2, l.y2)) =
        some (some (startAt M c.data p i).x, some (startAt M c.data p i).y)) ∧
    startAt M c.data p 0 = ⟨0, -1⟩ ∧
    (∀ i, startAt M c.data p (i + 1) =
      ⟨M.cos (angleAt M c.data p (i + 1)), M.sin (angleAt M c.data p (i + 1))⟩) ∧
    angleAt M c.data p 0 = M.PI / -2 ∧
    (∀ i (hi : i < c.data.length),
      angleAt M c.data p (i + 1) =
        angleAt M c.data p i + c.data[i] / total c.data * p * 2 * M.PI) ∧
    (∀ (cos sin : F64 → F64) (pow : F64 → F64 → F64),
      ([1, 1, 2] : List F64).map (span (f64Math cos sin pow) (total [1, 1, 2]) 1) =
        [F64.PI / 2, F64.PI / 2, F64.PI] ∧
      ([F64.PI / 2, F64.PI / 2, F64.PI] : List F64) =
        [1.5707963267948966, 1.5707963267948966, 3.141592653589793]) ∧
    (∀ (cr : PieChart ℝ) (q : ℝ), cr.WellFormed → 0 < cr.data.sum →
      (∀ i, angleAt realMath cr.data q i = startAngle realMath cr.data q i ∧
        angleAt realMath cr.data q (i + 1) = endAngle realMath cr.data q i) ∧
      (∃ c', cr.draw realMath q = some c' ∧ ∀ i, i < cr.data.length →
        (∃ flag, (c'.paths[i]?).bind (fun q => q.d) = some
          [Tok.cmd "M", Tok.num 0, Tok.num 0,
            Tok.cmd "L", Tok.num (Real.cos (startAngle realMath cr.data q i)),
            Tok.num (Real.sin (startAngle realMath cr.data q i)),
            Tok.cmd "A", Tok.num 1, Tok.num 1, Tok.num 0, Tok.num flag, Tok.num 1,
            Tok.num (Real.cos (endAngle realMath cr.data q i)),
            Tok.num (Real.sin (endAngle realMath cr.data q i)),
            Tok.cmd "L", Tok.num 0, Tok.num 0]) ∧
        (c'.lines[i]?).map (fun l => (l.x2, l.y2)) =
          some (some (Real.cos (startAngle realMath cr.data q i)),
            some (Real.sin (startAngle realMath cr.data q i))) ∧
        (i + 1 < cr.data.length → (c'.lines[i + 1]?).map (fun l => (l.x2, l.y2)) =
          some (some (Real.cos (endAngle realMath cr.data q i)),
            some (Real.sin (endAngle realMath cr.data q i))))) ∧
      (∀ i (hi : i < cr.data.length),
        endAngle realMath cr.data q i - startAngle realMath cr.data q i =
          cr.data[i] / cr.data.sum * q * (2 * Real.pi) ∧
        endAngle realMath cr.data q i - startAngle realMath cr.data q i =
          span realMath (total cr.data) q cr.data[i]) ∧
      (Real.cos (startAngle realMath cr.data q 0) = 0 ∧
        Real.sin (startAngle realMath cr.data q 0) = -1) ∧
      (∀ i, startAngle realMath cr.data q (i + 1) = endAngle realMath cr.data q i) ∧
      ([1, 1, 2] : List ℝ).map (span realMath (total [1, 1, 2]) 1) =
        [Real.pi / 2, Real.pi / 2, Real.pi]) := by
  refine ⟨?_, rfl, ?_, rfl, ?_, ?_, ?_⟩
  · obtain ⟨c', h1, -, -, h4⟩ := draw_index M c hwf p
    refine ⟨c', h1, ?_⟩
    intro i hi
    obtain ⟨e1, e2, -⟩ := h4 i hi
    exact ⟨⟨largeFlag (ratio (total c.data) p c.data[i]), e1⟩, e2⟩
  · intro i
    unfold startAt
    rw [if_neg (Nat.succ_ne_zero i)]
    rfl
  · intro i hi
    rw [angleAt_succ M c.data p i hi]
    rfl
  · intro cos sin pow
    refine ⟨?_, by decide⟩
    have h : span (f64Math cos sin pow) (total [1, 1, 2]) 1 =
        span (f64Math (fun x => x) (fun x => x) (fun x _ => x)) (total [1, 1, 2]) 1 := by
      funext v
      exact span_f64 cos sin pow _ _ v
    rw [h]
    decide
  · intro cr q hwfr _
    refine ⟨fun i => ⟨angleAt_real cr.data q i, angleAt_succ_real cr.data q i⟩, ?_, ?_, ?_, ?_, ?_⟩
    · obtain ⟨c', h1, -, h4⟩ := draw_index_real cr hwfr q
      refine ⟨c', h1, ?_⟩
      intro i hi
      obtain ⟨e1, e2, -⟩ := h4 i hi
      refine ⟨⟨largeFlag (ratio cr.data.sum q cr.data[i]), e1⟩, e2, ?_⟩
      intro hi1
      exact (h4 (i + 1) hi1).2.1
    · intro i hi
      have h1 : endAngle realMath cr.data q i - startAngle realMath cr.data q i =
          cr.data[i] / cr.data.sum * q * (2 * Real.pi) := by
        unfold endAngle startAngle
        rw [List.sum_take_succ _ _ hi]
        simp only [realMath]
        ring
      refine ⟨h1, ?_⟩
      rw [h1]
      simp only [span, ratio, total_eq_sum, realMath]
      ring
    · simp [startAngle, realMath]
    · intro i
      rfl
    · simp only [List.map_cons, List.map_nil, span, ratio, total, List.foldl_cons,
        List.foldl_nil, realMath]
      norm_num
      ring

/-- The witness of `draw_segment_geometry`: the component built from the values
1, 4, 1 in binary64, at progress 1. -/
theorem draw_segment_geometry_witness :
    (PieChart.build ([1, 4, 1] : List F64) [] defaultColors "0.015" "0.005").WellFormed ∧
    ∀ (cos sin : F64 → F64) (pow : F64 → F64 → F64),
      ∃ c', (PieChart.build ([1, 4, 1] : List F64) [] defaultColors "0.015" "0.005").draw
          (f64Math cos sin pow) 1 = some c' ∧
        (c'.lines[1]?).map (fun l => (l.x2, l.y2)) =
          some (some (startAt (f64Math cos sin pow) [1, 4, 1] 1 1).x,
            some (startAt (f64Math cos sin pow) [1, 4, 1] 1 1).y) := by
  refine ⟨build_wellFormed _ _ _ _ _, ?_⟩
  intro cos sin pow
  obtain ⟨⟨c', h1, h2⟩, -⟩ := draw_segment_geometry (f64Math cos sin pow)
    (PieChart.build ([1, 4, 1] : List F64) [] defaultColors "0.015" "0.005")
    (build_wellFormed _ _ _ _ _) 1
  exact ⟨c', h1, (h2 1 (by simp [PieChart.build])).2⟩

/-- C3, as stated, fails: for the values 1, 1, 2 and no labels, `draw(1)` does
not write large-arc-flag 1 into the third segment's path. -/
theorem draw_one_one_two_third_flag_not_one :
    ¬ ∃ c' S E,
      (PieChart.build ([1, 1, 2] : List ℝ) [] defaultColors "0.015" "0.005").draw realMath 1 =
        some c' ∧
      (c'.paths[2]?).bind (fun q => q.d) = some (pathData S 1 E) := by
  rintro ⟨c', S, E, h1, h2⟩
  obtain ⟨c'', g1, -, g2⟩ := draw_index_real
    (PieChart.build ([1, 1, 2] : List ℝ) [] defaultColors "0.015" "0.005")
    (build_wellFormed _ _ _ _ _) 1
  rw [g1] at h1
  simp only [Option.some.injEq] at h1
  subst h1
  have h3 := (g2 2 (by simp [PieChart.build])).1
  rw [h2] at h3
  simp only [PieChart.build, largeFlag, ratio, real_lt] at h3
  norm_num [pathData, Point.toSvgPath] at h3

/-- C3, amended: for the values 1, 1, 2 and no labels the ratios at progress 1
are 1/4, 1/4 and 1/2, none of them greater than 0.5, and `draw(1)` writes
large-arc-flag 0 into the paths of all three segments. -/
theorem draw_one_one_two_flags :
    ([1, 1, 2] : List ℝ).map (ratio (total [1, 1, 2]) 1) = [1 / 4, 1 / 4, 1 / 2] ∧
    ∃ c',
      (PieChart.build ([1, 1, 2] : List ℝ) [] defaultColors "0.015" "0.005").draw realMath 1 =
        some c' ∧
      ∀ i, i < 3 → ∃ S E, (c'.paths[i]?).bind (fun q => q.d) = some (pathData S 0 E) := by
  refine ⟨?_, ?_⟩
  · simp only [List.map_cons, List.map_nil, ratio, total, List.foldl_cons, List.foldl_nil]
    norm_num
  obtain ⟨c', g1, -, g2⟩ := draw_index_real
    (PieChart.build ([1, 1, 2] : List ℝ) [] defaultColors "0.015" "0.005")
    (build_wellFormed _ _ _ _ _) 1
  refine ⟨c', g1, ?_⟩
  intro i hi
  have h3 := (g2 i (by simpa [PieChart.build] using hi)).1
  refine ⟨Point.fromAngle realMath (startAngle realMath [1, 1, 2] 1 i),
    Point.fromAngle realMath (endAngle realMath [1, 1, 2] 1 i), ?_⟩
  rw [h3]
  simp only [PieChart.build, largeFlag, ratio, real_lt]
  interval_cases i <;> norm_num

/-- C4, as stated, fails in the arithmetic of the script, binary64.  For the
values 0.9, 0.5, 0.4 the exact ratio `(v_0/T)·1` is `1/2`, not greater than
0.5, yet `draw(1)` computes the total `1.7999999999999998` and the ratio
`0.5000000000000001` and writes large-arc-flag 1 into the path of segment 0.
For the single value `Infinity`, which is greater than 0, the ratio is `NaN`
and the flag written is 0.  This holds whatever `Math.cos`, `Math.sin` and
`Math.pow` compute. -/
theorem draw_flag_not_exact_ratio :
    (F64.toRat 0.9 / (F64.toRat 0.9 + F64.toRat 0.5 + F64.toRat 0.4) * 1 = 1 / 2 ∧
      total ([0.9, 0.5, 0.4] : List F64) = 1.7999999999999998 ∧
      ratio (total ([0.9, 0.5, 0.4] : List F64)) 1 0.9 = 0.5000000000000001) ∧
    (∀ (cos sin : F64 → F64) (pow : F64 → F64 → F64),
      ∃ c' sx sy ex ey,
        (PieChart.build ([0.9, 0.5, 0.4] : List F64) [] defaultColors "0.015" "0.005").draw
          (f64Math cos sin pow) 1 = some c' ∧
        (c'.paths[0]?).bind (fun q => q.d) = some
          [Tok.cmd "M", Tok.num 0, Tok.num 0, Tok.cmd "L", Tok.num sx, Tok.num sy,
            Tok.cmd "A", Tok.num 1, Tok.num 1, Tok.num 0, Tok.num 1, Tok.num 1,
            Tok.num ex, Tok.num ey, Tok.cmd "L", Tok.num 0, Tok.num 0]) ∧
    (JsNumber.lt (0 : F64) (F64.inf false) = true ∧
      ratio (total [F64.inf false]) 1 (F64.inf false) = F64.nan) ∧
    ∀ (cos sin : F64 → F64) (pow : F64 → F64 → F64),
      ∃ c' sx sy ex ey,
        (PieChart.build [F64.inf false] [] defaultColors "0.015" "0.005").draw
          (f64Math cos sin pow) 1 = some c' ∧
        (c'.paths[0]?).bind (fun q => q.d) = some
          [Tok.cmd "M", Tok.num 0, Tok.num 0, Tok.cmd "L", Tok.num sx, Tok.num sy,
            Tok.cmd "A", Tok.num 1, Tok.num 1, Tok.num 0, Tok.num 0, Tok.num 1,
            Tok.num ex, Tok.num ey, Tok.cmd "L", Tok.num 0, Tok.num 0] := by
  refine ⟨⟨?_, by decide, by decide⟩, ?_, ⟨by decide, by decide⟩, ?_⟩
  · have h9 : (0.9 : F64) = F64.fin false (8106479329266893 <<< 1021) := by decide
    have h5 : (0.5 : F64) = F64.fin false (1 <<< 1073) := by decide
    have h4 : (0.4 : F64) = F64.fin false (3602879701896397 <<< 1021) := by decide
    rw [h9, h5, h4]
    simp only [F64.toRat, Nat.shiftLeft_eq]
    norm_num
  · intro cos sin pow
    obtain ⟨c', h1, -, -, h4⟩ := draw_index (f64Math cos sin pow)
      (PieChart.build ([0.9, 0.5, 0.4] : List F64) [] defaultColors "0.015" "0.005")
      (build_wellFormed _ _ _ _ _) 1
    obtain ⟨e1, -, -⟩ := h4 0 (by simp [PieChart.build])
    have hf : largeFlag (ratio (total ([0.9, 0.5, 0.4] : List F64)) 1 0.9) = 1 := by decide
    simp only [PieChart.build, List.getElem_cons_zero, hf] at e1
    exact ⟨c', _, _, _, _, h1, e1⟩
  · intro cos sin pow
    obtain ⟨c', h1, -, -, h4⟩ := draw_index (f64Math cos sin pow)
      (PieChart.build [F64.inf false] [] defaultColors "0.015" "0.005")
      (build_wellFormed _ _ _ _ _) 1
    obtain ⟨e1, -, -⟩ := h4 0 (by simp [PieChart.build])
    have hf : largeFlag (ratio (total [F64.inf false]) 1 (F64.inf false)) = 0 := by decide
    simp only [PieChart.build, List.getElem_cons_zero, hf] at e1
    exact ⟨c', _, _, _, _, h1, e1⟩

/-- C4, amended: in every arithmetic, that of the script included, `draw(p)`
succeeds and the large-arc-flag it writes into the path of segment `i` is 1 if
the value `(v_i / total) * p` that it computes for `ratio`, with `total` the
sum it computes and each operation rounded as the arithmetic rounds it, is
greater than 0.5, and 0 otherwise.  In binary64, for a single finite value
`v > 0`, `draw(1)` has ratio 1 and writes large-arc-flag 1.  In exact
arithmetic with a total `T > 0` the computed ratio is `(v_i/T)·p`, and for a
single value `v > 0` the ratio is 1 and the flag 1. -/
theorem draw_large_arc_flag {α : Type} [JsNumber α] (M : JsMath α) (c : PieChart α)
    (hwf : c.WellFormed) :
    (∀ p : α, ∃ c', c.draw M p = some c' ∧ ∀ i (hi : i < c.data.length),
      ∃ sx sy ex ey, (c'.paths[i]?).bind (fun q => q.d) = some
        [Tok.cmd "M", Tok.num 0, Tok.num 0, Tok.cmd "L", Tok.num sx, Tok.num sy,
          Tok.cmd "A", Tok.num 1, Tok.num 1, Tok.num 0,
          Tok.num (if JsNumber.lt 0.5 (c.data[i] / total c.data * p) then 1 else 0),
          Tok.num 1, Tok.num ex, Tok.num ey, Tok.cmd "L", Tok.num 0, Tok.num 0]) ∧
    (∀ (cos sin : F64 → F64) (pow : F64 → F64 → F64) (c1 : PieChart F64) (n : Nat),
      c1.WellFormed → n ≠ 0 → F64.roundAt false n 0 = F64.fin false n →
      c1.data = [F64.fin false n] →
      ratio (total c1.data) 1 (F64.fin false n) = 1 ∧
      ∃ c' sx sy ex ey, c1.draw (f64Math cos sin pow) 1 = some c' ∧
        (c'.paths[0]?).bind (fun q => q.d) = some
          [Tok.cmd "M", Tok.num 0, Tok.num 0, Tok.cmd "L", Tok.num sx, Tok.num sy,
            Tok.cmd "A", Tok.num 1, Tok.num 1, Tok.num 0, Tok.num 1, Tok.num 1,
            Tok.num ex, Tok.num ey, Tok.cmd "L", Tok.num 0, Tok.num 0]) ∧
    (∀ cr : PieChart ℝ, cr.WellFormed → 0 < cr.data.sum →
      (∀ q : ℝ, ∃ c', cr.draw realMath q = some c' ∧ ∀ i (hi : i < cr.data.length),
        ratio (total cr.data) q cr.data[i] = cr.data[i] / cr.data.sum * q ∧
        ∃ sx sy ex ey, (c'.paths[i]?).bind (fun q => q.d) = some
          [Tok.cmd "M", Tok.num 0, Tok.num 0, Tok.cmd "L", Tok.num sx, Tok.num sy,
            Tok.cmd "A", Tok.num 1, Tok.num 1, Tok.num 0,
            Tok.num (if cr.data[i] / cr.data.sum * q > 0.5 then 1 else 0),
            Tok.num 1, Tok.num ex, Tok.num ey, Tok.cmd "L", Tok.num 0, Tok.num 0]) ∧
      (∀ v : ℝ, 0 < v → cr.data = [v] →
        ratio (total cr.data) 1 v = 1 ∧
        ∃ c' sx sy ex ey, cr.draw realMath 1 = some c' ∧
          (c'.paths[0]?).bind (fun q => q.d) = some
            [Tok.cmd "M", Tok.num 0, Tok.num 0, Tok.cmd "L", Tok.num sx, Tok.num sy,
              Tok.cmd "A", Tok.num 1, Tok.num 1, Tok.num 0, Tok.num 1, Tok.num 1,
              Tok.num ex, Tok.num ey, Tok.cmd "L", Tok.num 0, Tok.num 0])) := by
  refine ⟨?_, ?_, ?_⟩
  · intro p
    obtain ⟨c', h1, -, -, h4⟩ := draw_index M c hwf p
    refine ⟨c', h1, ?_⟩
    intro i hi
    exact ⟨_, _, _, _, (h4 i hi).1⟩
  · intro cos sin pow c1 n hw1 hn hrep hdata
    have hr : ratio (total c1.data) 1 (F64.fin false n) = 1 := by
      rw [hdata]
      exact f64_ratio_single n hn hrep
    obtain ⟨c', h1, -, -, h4⟩ := draw_index (f64Math cos sin pow) c1 hw1 1
    have hi : 0 < c1.data.length := by rw [hdata]; simp
    have e1 := (h4 0 hi).1
    have hv : c1.data[0] = F64.fin false n := by simp only [hdata, List.getElem_cons_zero]
    have hf : largeFlag (1 : F64) = 1 := by decide
    rw [hv, hr, hf] at e1
    exact ⟨hr, c', _, _, _, _, h1, e1⟩
  · intro cr hwfr _
    refine ⟨?_, ?_⟩
    · intro q
      obtain ⟨c', h1, -, h4⟩ := draw_index_real cr hwfr q
      refine ⟨c', h1, ?_⟩
      intro i hi
      have e1 := (h4 i hi).1
      rw [largeFlag_real] at e1
      exact ⟨by simp only [ratio, total_eq_sum], _, _, _, _, e1⟩
    · intro v hv hdata
      have hv0 : v ≠ 0 := ne_of_gt hv
      obtain ⟨c', h1, -, h4⟩ := draw_index_real cr hwfr 1
      have hi : 0 < cr.data.length := by rw [hdata]; simp
      have hr : ratio cr.data.sum 1 cr.data[0] = 1 := by
        simp only [hdata, ratio]
        simp [hv0]
      have e1 := (h4 0 hi).1
      have hf : largeFlag (1 : ℝ) = 1 := by
        rw [largeFlag_real]
        norm_num
      rw [hr, hf] at e1
      refine ⟨?_, c', _, _, _, _, h1, e1⟩
      rw [total_eq_sum]
      simp only [hdata, ratio]
      simp [hv0]

/-- The witness of `draw_large_arc_flag`: the component built from the single
binary64 value 5, whose magnitude is `5 * 2^1074` units, at progress 1. -/
theorem draw_large_arc_flag_witness :
    ((5 : F64) = F64.fin false (5 <<< 1074) ∧
      F64.roundAt false (5 <<< 1074) 0 = F64.fin false (5 <<< 1074)) ∧
    ∀ (cos sin : F64 → F64) (pow : F64 → F64 → F64),
      ratio (total [F64.fin false (5 <<< 1074)]) 1 (F64.fin false (5 <<< 1074)) = 1 ∧
      ∃ c' sx sy ex ey,
        (PieChart.build [F64.fin false (5 <<< 1074)] [] defaultColors "0.015" "0.005").draw
          (f64Math cos sin pow) 1 = some c' ∧
        (c'.paths[0]?).bind (fun q => q.d) = some
          [Tok.cmd "M", Tok.num 0, Tok.num 0, Tok.cmd "L", Tok.num sx, Tok.num sy,
            Tok.cmd "A", Tok.num 1, Tok.num 1, Tok.num 0, Tok.num 1, Tok.num 1,
            Tok.num ex, Tok.num ey, Tok.cmd "L", Tok.num 0, Tok.num 0] := by
  refine ⟨⟨by decide, by decide⟩, ?_⟩
  intro cos sin pow
  exact (draw_large_arc_flag (f64Math cos sin pow)
    (PieChart.build [F64.fin false (5 <<< 1074)] [] defaultColors "0.015" "0.005")
    (build_wellFormed _ _ _ _ _)).2.1 cos sin pow
    (PieChart.build [F64.fin false (5 <<< 1074)] [] defaultColors "0.015" "0.005")
    (5 <<< 1074) (build_wellFormed _ _ _ _ _) (by decide) (by decide) rfl

/-- C5, as stated, fails in the arithmetic of the script, binary64.  For the
values 1, 0.9999999999999999 (exactly `1 - 2^(-53)`) the midpoint `m_0` of the
claim is not 0, yet `draw(1)` computes the total 2 and the angle 0 for the
label of segment 0 and leaves that label without `top` and `left`.  This
holds whatever `Math.cos`, `Math.sin` and `Math.pow` compute. -/
theorem draw_label_skipped_at_nonzero_midpoint :
    (F64.toRat 1 = 1 ∧ F64.toRat 0.9999999999999999 = 1 - 1 / 2 ^ 53 ∧
      midAngle realMath [1, 1 - 1 / 2 ^ 53] 0 ≠ 0) ∧
    total ([1, 0.9999999999999999] : List F64) = 2 ∧
    ∀ (cos sin : F64 → F64) (pow : F64 → F64 → F64),
      labelAngle (f64Math cos sin pow) [1, 0.9999999999999999] 1 0 = 0 ∧
      ∃ c', (PieChart.build ([1, 0.9999999999999999] : List F64) ["a"] defaultColors "0.015"
          "0.005").draw (f64Math cos sin pow) 1 = some c' ∧
        c'.labels[0]? = some { innerText := "a", classList := [], top := none, left := none } := by
  refine ⟨⟨?_, ?_, ?_⟩, by decide, ?_⟩
  · have h : (1 : F64) = F64.fin false (1 <<< 1074) := by decide
    rw [h]
    simp only [F64.toRat, Nat.shiftLeft_eq]
    norm_num
  · have h : (0.9999999999999999 : F64) = F64.fin false (9007199254740991 <<< 1021) := by decide
    rw [h]
    simp only [F64.toRat, Nat.shiftLeft_eq]
    norm_num
  · have h : midAngle realMath [1, 1 - 1 / 2 ^ 53] 0 =
        Real.pi * (1 / 36028797018963966) := by
      simp only [midAngle, realMath, List.take_zero, List.sum_nil, List.getD_cons_zero,
        List.sum_cons]
      norm_num
      ring
    rw [h]
    positivity
  · intro cos sin pow
    have hl : labelAngle (f64Math cos sin pow) [1, 0.9999999999999999] 1 0 = 0 := by
      rw [labelAngle_f64]
      decide
    refine ⟨hl, ?_⟩
    obtain ⟨c', h1, -, -, h4⟩ := draw_index (f64Math cos sin pow)
      (PieChart.build ([1, 0.9999999999999999] : List F64) ["a"] defaultColors "0.015" "0.005")
      (build_wellFormed _ _ _ _ _) 1
    refine ⟨c', h1, ?_⟩
    obtain ⟨-, -, e3⟩ := h4 0 (by simp [PieChart.build])
    rw [e3, if_pos f64_strictEq_one]
    have hd : (PieChart.build ([1, 0.9999999999999999] : List F64) ["a"] defaultColors "0.015"
        "0.005").data = [1, 0.9999999999999999] := rfl
    rw [hd, hl, positionLabel_noop _ _ _ _ (Or.inr (by decide))]
    rfl

/-- C5, amended: in every arithmetic in which `1 === 1`, that of the script
included, `draw(1)` succeeds and places the label of every segment `i` by
`positionLabel` at the angle `angle + ratio * Math.PI` that it computes, the
running angle before segment `i` plus `(v_i / total) * 1 * Math.PI`, each
operation rounded as the arithmetic rounds it; when the label exists and that
angle is truthy its `left` becomes `(cos(a) * 1 * 0.5 + 0.5) * 100` and its
`top` `(sin(a) * 1 * 0.5 + 0.5) * 100`, and when the angle is falsy the label
is left as it is.  `draw(p)` with `p !== 1` leaves all labels as they are.  In
binary64, for the single value 5 the angle is `1.5707963267948966`, and where
`Math.cos` and `Math.sin` return `6.123233995736766e-17` and `1` at that angle
the label gets `left` 50 and `top` 100.  In exact arithmetic with a total
`T > 0` the angle is the midpoint `m_i = -π/2 + 2π·(v_0+...+v_{i-1} + v_i/2)/T`,
both percentages lie in `[0, 100]`, and for the single value 5 the midpoint is
`π/2` and the label gets `left` 50 and `top` 100. -/
theorem draw_label_placement {α : Type} [JsNumber α] (M : JsMath α) (c : PieChart α)
    (hwf : c.WellFormed) (hone : JsNumber.strictEq (1 : α) 1 = true) :
    (∃ c', c.draw M 1 = some c' ∧ ∀ i (hi : i < c.data.length),
      labelAngle M c.data 1 i = angleAt M c.data 1 i + c.data[i] / total c.data * 1 * M.PI ∧
      c'.labels[i]? = (c.positionLabel M i (labelAngle M c.data 1 i)).labels[i]? ∧
      ∀ l, c.labels[i]? = some l →
        (JsNumber.truthy (labelAngle M c.data 1 i) = true →
          c'.labels[i]? = some
            { l with
              top := some ((M.sin (labelAngle M c.data 1 i) * 1 * 0.5 + 0.5) * 100)
              left := some ((M.cos (labelAngle M c.data 1 i) * 1 * 0.5 + 0.5) * 100) }) ∧
        (JsNumber.truthy (labelAngle M c.data 1 i) = false → c'.labels[i]? = some l)) ∧
    (∀ p : α, JsNumber.strictEq p 1 = false →
      ∃ c', c.draw M p = some c' ∧ c'.labels = c.labels) ∧
    (∀ (cos sin : F64 → F64) (pow : F64 → F64 → F64) (c5 : PieChart F64) (l : LabelEl F64),
      c5.WellFormed → c5.data = [5] → c5.labels[0]? = some l →
      labelAngle (f64Math cos sin pow) c5.data 1 0 = 1.5707963267948966 ∧
      (cos 1.5707963267948966 = 6.123233995736766e-17 → sin 1.5707963267948966 = 1 →
        ∃ c', c5.draw (f64Math cos sin pow) 1 = some c' ∧
          c'.labels[0]? = some { l with top := some (100 : F64), left := some (50 : F64) })) ∧
    (∀ cr : PieChart ℝ, cr.WellFormed → 0 < cr.data.sum →
      (∃ c', cr.draw realMath 1 = some c' ∧ ∀ i, i < cr.data.length →
        labelAngle realMath cr.data 1 i = midAngle realMath cr.data i ∧
        c'.labels[i]? = (cr.positionLabel realMath i (midAngle realMath cr.data i)).labels[i]? ∧
        ∀ l, cr.labels[i]? = some l → midAngle realMath cr.data i ≠ 0 →
          c'.labels[i]? = some
            { l with
              top := some ((Real.sin (midAngle realMath cr.data i) * 0.5 + 0.5) * 100)
              left := some ((Real.cos (midAngle realMath cr.data i) * 0.5 + 0.5) * 100) } ∧
          0 ≤ (Real.cos (midAngle realMath cr.data i) * 0.5 + 0.5) * 100 ∧
          (Real.cos (midAngle realMath cr.data i) * 0.5 + 0.5) * 100 ≤ 100 ∧
          0 ≤ (Real.sin (midAngle realMath cr.data i) * 0.5 + 0.5) * 100 ∧
          (Real.sin (midAngle realMath cr.data i) * 0.5 + 0.5) * 100 ≤ 100) ∧
      (∀ p : ℝ, p ≠ 1 → ∃ c', cr.draw realMath p = some c' ∧ c'.labels = cr.labels) ∧
      (cr.data = [5] →
        midAngle realMath cr.data 0 = Real.pi / 2 ∧
        ∀ l : LabelEl ℝ, cr.labels[0]? = some l →
          ∃ c', cr.draw realMath 1 = some c' ∧
            c'.labels[0]? = some { l with top := some (100 : ℝ), left := some (50 : ℝ) })) := by
  refine ⟨?_, ?_, ?_, ?_⟩
  · obtain ⟨c', h1, -, -, h4⟩ := draw_index M c hwf 1
    refine ⟨c', h1, ?_⟩
    intro i hi
    have e3 := (h4 i hi).2.2
    rw [if_pos hone] at e3
    refine ⟨?_, e3, ?_⟩
    · unfold labelAngle
      rw [List.getD_eq_getElem _ _ hi]
      rfl
    · intro l hl
      refine ⟨?_, ?_⟩
      · intro ht
        rw [e3, positionLabel_labels_self, hl]
        simp only [Option.map_some', ht, if_true]
      · intro ht
        rw [e3, positionLabel_noop M c i _ (Or.inr ht), hl]
  · intro p hp
    obtain ⟨c', h1, -, h3, -⟩ := draw_index M c hwf p
    exact ⟨c', h1, h3 hp⟩
  · intro cos sin pow c5 l hw5 hdata hl
    have ha : labelAngle (f64Math cos sin pow) c5.data 1 0 = 1.5707963267948966 := by
      rw [hdata, labelAngle_f64]
      decide
    refine ⟨ha, ?_⟩
    intro hcos hsin
    obtain ⟨c', h1, -, -, h4⟩ := draw_index (f64Math cos sin pow) c5 hw5 1
    refine ⟨c', h1, ?_⟩
    have hi : 0 < c5.data.length := by rw [hdata]; simp
    have e3 := (h4 0 hi).2.2
    have ht : JsNumber.truthy (1.5707963267948966 : F64) = true := by decide
    rw [if_pos f64_strictEq_one, ha, positionLabel_labels_self, hl] at e3
    simp only [Option.map_some', ht, if_true] at e3
    rw [e3]
    have hs' : (f64Math cos sin pow).sin 1.5707963267948966 = 1 := hsin
    have hc' : (f64Math cos sin pow).cos 1.5707963267948966 = 6.123233995736766e-17 := hcos
    rw [hs', hc']
    have htop : ((1 : F64) * 1 * 0.5 + 0.5) * 100 = 100 := by decide
    have hleft : ((6.123233995736766e-17 : F64) * 1 * 0.5 + 0.5) * 100 = 50 := by decide
    rw [htop, hleft]
  · intro cr hwfr _
    obtain ⟨c', g1, -, g2⟩ := draw_index_real cr hwfr 1
    have hmain : ∀ i, i < cr.data.length →
        c'.labels[i]? = (cr.positionLabel realMath i (midAngle realMath cr.data i)).labels[i]? ∧
        ∀ l, cr.labels[i]? = some l → midAngle realMath cr.data i ≠ 0 →
          c'.labels[i]? = some
            { l with
              top := some ((Real.sin (midAngle realMath cr.data i) * 0.5 + 0.5) * 100)
              left := some ((Real.cos (midAngle realMath cr.data i) * 0.5 + 0.5) * 100) } := by
      intro i hi
      have h3 := (g2 i hi).2.2 rfl
      refine ⟨h3, ?_⟩
      intro l hl hm
      rw [h3, positionLabel_real_self cr i _ l hl hm]
    refine ⟨⟨c', g1, ?_⟩, ?_, ?_⟩
    · intro i hi
      refine ⟨labelAngle_real cr.data i hi, (hmain i hi).1, ?_⟩
      intro l hl hm
      have hc1 := Real.neg_one_le_cos (midAngle realMath cr.data i)
      have hc2 := Real.cos_le_one (midAngle realMath cr.data i)
      have hs1 := Real.neg_one_le_sin (midAngle realMath cr.data i)
      have hs2 := Real.sin_le_one (midAngle realMath cr.data i)
      refine ⟨(hmain i hi).2 l hl hm, ?_, ?_, ?_, ?_⟩ <;> norm_num <;> linarith
    · intro p hp
      obtain ⟨c'', k1, k2, -⟩ := draw_index_real cr hwfr p
      exact ⟨c'', k1, k2 hp⟩
    · intro hdata
      have hmid : midAngle realMath cr.data 0 = Real.pi / 2 := by
        simp only [hdata, midAngle, realMath]
        norm_num
        ring
      refine ⟨hmid, ?_⟩
      intro l hl
      have hm0 : midAngle realMath cr.data 0 ≠ 0 := by
        rw [hmid]
        exact ne_of_gt (half_pos Real.pi_pos)
      have hi : 0 < cr.data.length := by rw [hdata]; simp
      refine ⟨c', g1, ?_⟩
      rw [(hmain 0 hi).2 l hl hm0, hmid]
      simp only [Real.sin_pi_div_two, Real.cos_pi_div_two]
      norm_num

/-- The witness of `draw_label_placement`: the component built from the single
binary64 value 5 with one label, where `Math.cos` returns
`6.123233995736766e-17` and `Math.sin` returns 1. -/
theorem draw_label_placement_witness :
    ((PieChart.build ([5] : List F64) ["five"] defaultColors "0.015" "0.005").WellFormed ∧
      JsNumber.strictEq (1 : F64) 1 = true) ∧
    ∀ pow : F64 → F64 → F64,
      labelAngle (f64Math (fun _ => 6.123233995736766e-17) (fun _ => 1) pow) [5] 1 0 =
        1.5707963267948966 ∧
      ∃ c', (PieChart.build ([5] : List F64) ["five"] defaultColors "0.015" "0.005").draw
          (f64Math (fun _ => 6.123233995736766e-17) (fun _ => 1) pow) 1 = some c' ∧
        c'.labels[0]? = some
          { innerText := "five", classList := [], top := some (100 : F64),
            left := some (50 : F64) } := by
  refine ⟨⟨build_wellFormed _ _ _ _ _, by decide⟩, ?_⟩
  intro pow
  obtain ⟨h1, h2⟩ := (draw_label_placement
    (f64Math (fun _ => 6.123233995736766e-17) (fun _ => 1) pow)
    (PieChart.build ([5] : List F64) ["five"] defaultColors "0.015" "0.005")
    (build_wellFormed _ _ _ _ _) (by decide)).2.2.1
    (fun _ => 6.123233995736766e-17) (fun _ => 1) pow
    (PieChart.build ([5] : List F64) ["five"] defaultColors "0.015" "0.005")
    (newLabel "five") (build_wellFormed _ _ _ _ _) rfl rfl
  exact ⟨h1, h2 rfl rfl⟩

/-- C6, as stated, fails in the arithmetic of the script, binary64.  For the
values 1, 1, 4 the arc midpoint of segment 1 is exactly 0, yet `draw(1)`
computes the angle `-1.1102230246251565e-16` for its label, which is not
falsy, and sets the label's `top` and `left`.  This holds whatever `Math.cos`,
`Math.sin` and `Math.pow` compute. -/
theorem draw_label_positioned_at_zero_midpoint :
    midAngle realMath [1, 1, 4] 1 = 0 ∧
    (F64.toRat 1 = 1 ∧ F64.toRat 4 = 4) ∧
    JsNumber.truthy (-1.1102230246251565e-16 : F64) = true ∧
    ∀ (cos sin : F64 → F64) (pow : F64 → F64 → F64),
      labelAngle (f64Math cos sin pow) [1, 1, 4] 1 1 = -1.1102230246251565e-16 ∧
      ∃ c', (PieChart.build ([1, 1, 4] : List F64) ["a", "b", "c"] defaultColors "0.015"
          "0.005").draw (f64Math cos sin pow) 1 = some c' ∧
        c'.labels[1]? = some
          { innerText := "b", classList := [],
            top := some ((sin (-1.1102230246251565e-16) * 1 * 0.5 + 0.5) * 100),
            left := some ((cos (-1.1102230246251565e-16) * 1 * 0.5 + 0.5) * 100) } := by
  refine ⟨?_, ⟨?_, ?_⟩, by decide, ?_⟩
  · simp only [midAngle, realMath, List.take_succ_cons, List.take_zero, List.sum_nil,
      List.sum_cons]
    norm_num [List.getD]
    ring
  · have h : (1 : F64) = F64.fin false (1 <<< 1074) := by decide
    rw [h]
    simp only [F64.toRat, Nat.shiftLeft_eq]
    norm_num
  · have h : (4 : F64) = F64.fin false (4 <<< 1074) := by decide
    rw [h]
    simp only [F64.toRat, Nat.shiftLeft_eq]
    norm_num
  · intro cos sin pow
    have hl : labelAngle (f64Math cos sin pow) [1, 1, 4] 1 1 = -1.1102230246251565e-16 := by
      rw [labelAngle_f64]
      decide
    refine ⟨hl, ?_⟩
    obtain ⟨c', h1, -, -, h4⟩ := draw_index (f64Math cos sin pow)
      (PieChart.build ([1, 1, 4] : List F64) ["a", "b", "c"] defaultColors "0.015" "0.005")
      (build_wellFormed _ _ _ _ _) 1
    refine ⟨c', h1, ?_⟩
    obtain ⟨-, -, e3⟩ := h4 1 (by simp [PieChart.build])
    rw [e3, if_pos f64_strictEq_one, positionLabel_labels_self]
    have hd : (PieChart.build ([1, 1, 4] : List F64) ["a", "b", "c"] defaultColors "0.015"
        "0.005").data = [1, 1, 4] := rfl
    have ht : JsNumber.truthy (-1.1102230246251565e-16 : F64) = true := by decide
    rw [hd, hl]
    simp only [ht, if_true]
    rfl

/-- C6, amended: in every arithmetic, `positionLabel(label, angle)` leaves the
whole component, and so every label, unchanged and raises no error whenever
the label is absent or the angle is falsy; in binary64 the falsy numbers are
`0`, `-0` and `NaN`, in exact arithmetic only 0.  Consequently, where
`1 === 1`, `draw(1)` does not touch the label of a segment whose computed
angle `angle + ratio * Math.PI` is falsy, and `draw(p)` returns normally for
every `p` whatever the number of labels, in particular with fewer labels than
values.  In binary64 the computed angle of segment 0 of the values 1, 1 is
exactly 0 and its label is left as it is.  In exact arithmetic the computed
angle is the arc midpoint, so a segment whose midpoint is exactly 0 keeps its
label, as segment 0 of the values 1, 1, whose midpoint is
`-π/2 + (1/2)·π = 0`. -/
theorem positionLabel_skips {α : Type} [JsNumber α] (M : JsMath α) (c : PieChart α)
    (hwf : c.WellFormed) (hone : JsNumber.strictEq (1 : α) 1 = true) :
    (∀ (c0 : PieChart α) (i : Nat) (angle : α),
      c0.labels[i]? = none ∨ JsNumber.truthy angle = false →
        c0.positionLabel M i angle = c0) ∧
    (∀ x : F64, JsNumber.truthy x = false ↔
      (x = F64.fin false 0 ∨ x = F64.fin true 0 ∨ x = F64.nan)) ∧
    (∀ x : ℝ, JsNumber.truthy x = false ↔ x = 0) ∧
    (∃ c', c.draw M 1 = some c' ∧ ∀ i, i < c.data.length →
      JsNumber.truthy (labelAngle M c.data 1 i) = false → c'.labels[i]? = c.labels[i]?) ∧
    (∀ p : α, ∃ c', c.draw M p = some c') ∧
    (∀ (cos sin : F64 → F64) (pow : F64 → F64 → F64) (c2 : PieChart F64),
      c2.WellFormed → c2.data = [1, 1] →
      labelAngle (f64Math cos sin pow) c2.data 1 0 = 0 ∧
      ∃ c', c2.draw (f64Math cos sin pow) 1 = some c' ∧ c'.labels[0]? = c2.labels[0]?) ∧
    (∀ cr : PieChart ℝ, cr.WellFormed →
      (∃ c', cr.draw realMath 1 = some c' ∧ ∀ i, i < cr.data.length →
        midAngle realMath cr.data i = 0 → c'.labels[i]? = cr.labels[i]?) ∧
      (cr.data = [1, 1] →
        midAngle realMath cr.data 0 = 0 ∧
        ∃ c', cr.draw realMath 1 = some c' ∧ c'.labels[0]? = cr.labels[0]?)) := by
  have hskip : ∀ {β : Type} [JsNumber β] (N : JsMath β) (d : PieChart β), d.WellFormed →
      JsNumber.strictEq (1 : β) 1 = true →
      ∃ c', d.draw N 1 = some c' ∧ ∀ i, i < d.data.length →
        JsNumber.truthy (labelAngle N d.data 1 i) = false → c'.labels[i]? = d.labels[i]? := by
    intro β _ N d hd h1
    obtain ⟨c', g1, -, -, g4⟩ := draw_index N d hd 1
    refine ⟨c', g1, ?_⟩
    intro i hi ht
    have e3 := (g4 i hi).2.2
    rw [if_pos h1, positionLabel_noop N d i _ (Or.inr ht)] at e3
    exact e3
  refine ⟨?_, ?_, ?_, hskip M c hwf hone, ?_, ?_, ?_⟩
  · intro c0 i angle h
    exact positionLabel_noop M c0 i angle h
  · intro x
    cases x with
    | fin s n =>
      cases s <;> simp [JsNumber.truthy, F64.truthy]
    | inf s => simp [JsNumber.truthy, F64.truthy]
    | nan => simp [JsNumber.truthy, F64.truthy]
  · intro x
    rw [real_truthy]
    simp
  · intro p
    obtain ⟨c', g1, -⟩ := draw_index M c hwf p
    exact ⟨c', g1⟩
  · intro cos sin pow c2 hw2 hdata
    have ha : labelAngle (f64Math cos sin pow) c2.data 1 0 = 0 := by
      rw [hdata, labelAngle_f64]
      decide
    refine ⟨ha, ?_⟩
    obtain ⟨c', g1, g2⟩ := hskip (f64Math cos sin pow) c2 hw2 f64_strictEq_one
    have hi : 0 < c2.data.length := by rw [hdata]; simp
    refine ⟨c', g1, g2 0 hi ?_⟩
    rw [ha]
    decide
  · intro cr hwr
    obtain ⟨c', g1, g2⟩ := hskip realMath cr hwr (by rw [real_strictEq]; simp)
    have hzero : ∀ i, i < cr.data.length →
        midAngle realMath cr.data i = 0 → c'.labels[i]? = cr.labels[i]? := by
      intro i hi hm
      apply g2 i hi
      rw [labelAngle_real cr.data i hi, hm, real_truthy]
      simp
    refine ⟨⟨c', g1, hzero⟩, ?_⟩
    intro hdata
    have hmid : midAngle realMath cr.data 0 = 0 := by
      simp only [hdata, midAngle, realMath]
      norm_num
      ring
    have hi : 0 < cr.data.length := by rw [hdata]; simp
    exact ⟨hmid, c', g1, hzero 0 hi hmid⟩

/-- The witness of `positionLabel_skips`: the component built from the binary64
values 1, 1 with a single label, fewer labels than values, whatever `Math.cos`,
`Math.sin` and `Math.pow` return. -/
theorem positionLabel_skips_witness :
    ((PieChart.build ([1, 1] : List F64) ["one"] defaultColors "0.015" "0.005").WellFormed ∧
      JsNumber.strictEq (1 : F64) 1 = true) ∧
    ∀ (cos sin : F64 → F64) (pow : F64 → F64 → F64),
      labelAngle (f64Math cos sin pow) [1, 1] 1 0 = 0 ∧
      ∃ c', (PieChart.build ([1, 1] : List F64) ["one"] defaultColors "0.015" "0.005").draw
          (f64Math cos sin pow) 1 = some c' ∧
        c'.labels[0]? = some (newLabel "one") := by
  refine ⟨⟨build_wellFormed _ _ _ _ _, by decide⟩, ?_⟩
  intro cos sin pow
  exact (positionLabel_skips (f64Math cos sin pow)
    (PieChart.build ([1, 1] : List F64) ["one"] defaultColors "0.015" "0.005")
    (build_wellFormed _ _ _ _ _) (by decide)).2.2.2.2.2.1 cos sin pow
    (PieChart.build ([1, 1] : List F64) ["one"] defaultColors "0.015" "0.005")
    (build_wellFormed _ _ _ _ _) rfl

/-- C7: `easeOutExpo(0) = 0` and `easeOutExpo(1) = 1` exactly, where
`easeOutExpo(x) = 1 - 2^(-10x)` for `x ≠ 1`, and the value at 1 is the
boundary case 1, which differs from `1 - 2^(-10)`. -/
theorem easeOutExpo_boundary :
    easeOutExpo realMath 0 = 0 ∧ easeOutExpo realMath 1 = 1 ∧
    (∀ x : ℝ, x ≠ 1 → easeOutExpo realMath x = 1 - (2 : ℝ) ^ (-10 * x)) ∧
    easeOutExpo realMath 1 ≠ 1 - (2 : ℝ) ^ (-10 * (1 : ℝ)) := by
  refine ⟨?_, ?_, ?_, ?_⟩
  · simp [easeOutExpo, realMath, real_strictEq]
  · simp [easeOutExpo, real_strictEq]
  · intro x hx
    simp [easeOutExpo, realMath, real_strictEq, hx]
  · have hpos : (0 : ℝ) < (2 : ℝ) ^ (-10 * (1 : ℝ)) := Real.rpow_pos_of_pos (by norm_num) _
    have h1 : easeOutExpo realMath 1 = 1 := by simp [easeOutExpo, real_strictEq]
    rw [h1]
    intro h
    linarith

/-- C8: one animation frame at elapsed time `elapsed ≥ 0`, with
`t = elapsed / 1000`: if `t < 1` the frame draws at `easeOutExpo(t)`, which
lies in `[0, 1)`, and schedules another frame; if `t ≥ 1` it draws at exactly 1
and schedules nothing.  Hence, after `connectedCallback` and any sequence of
display refreshes, every progress value passed to `draw` lies in `[0, 1]`, a
run that has stopped scheduling made its last draw at progress 1, a run stops
as soon as a frame sees `t ≥ 1`, and once stopped no later refresh runs a
frame. -/
theorem frame_progress_bounds (c : PieChart ℝ) (hwf : c.WellFormed) :
    (∀ a : Animation ℝ, a.chart.WellFormed → ∀ elapsed : ℝ, 0 ≤ elapsed →
      (elapsed / 1000 < 1 →
        0 ≤ easeOutExpo realMath (elapsed / 1000) ∧ easeOutExpo realMath (elapsed / 1000) < 1 ∧
        ∃ c', a.chart.draw realMath (easeOutExpo realMath (elapsed / 1000)) = some c' ∧
          frame realMath elapsed a = some
            { chart := c', scheduled := true,
              calls := a.calls ++ [easeOutExpo realMath (elapsed / 1000)] }) ∧
      (1 ≤ elapsed / 1000 →
        ∃ c', a.chart.draw realMath 1 = some c' ∧
          frame realMath elapsed a = some
            { chart := c', scheduled := false, calls := a.calls ++ [1] })) ∧
    (∀ es : List ℝ, (∀ e ∈ es, 0 ≤ e) →
      ∃ a0 a', c.connectedCallback realMath = some a0 ∧ a0.calls = [1] ∧
        refreshes realMath es a0 = some a' ∧
        (∀ q ∈ a'.calls, 0 ≤ q ∧ q ≤ 1) ∧
        (a'.scheduled = false → a'.calls.getLast? = some 1) ∧
        ((∃ e ∈ es, 1 ≤ e / 1000) → a'.scheduled = false)) ∧
    (∀ a : Animation ℝ, a.scheduled = false → ∀ es : List ℝ, refreshes realMath es a = some a) := by
  have hstep : ∀ a : Animation ℝ, a.chart.WellFormed → ∀ elapsed : ℝ, 0 ≤ elapsed →
      (elapsed / 1000 < 1 →
        0 ≤ easeOutExpo realMath (elapsed / 1000) ∧ easeOutExpo realMath (elapsed / 1000) < 1 ∧
        ∃ c', a.chart.draw realMath (easeOutExpo realMath (elapsed / 1000)) = some c' ∧
          frame realMath elapsed a = some
            { chart := c', scheduled := true,
              calls := a.calls ++ [easeOutExpo realMath (elapsed / 1000)] }) ∧
      (1 ≤ elapsed / 1000 →
        ∃ c', a.chart.draw realMath 1 = some c' ∧
          frame realMath elapsed a = some
            { chart := c', scheduled := false, calls := a.calls ++ [1] }) := by
    intro a ha elapsed he
    constructor
    · intro ht
      have hr := easeOutExpo_range (elapsed / 1000) (by positivity) ht
      obtain ⟨c', hc', -⟩ := draw_isSome realMath a.chart ha (easeOutExpo realMath (elapsed / 1000))
      refine ⟨hr.1, hr.2, c', hc', ?_⟩
      simp only [frame, real_lt, ht, decide_True, if_true, hc']
    · intro ht
      obtain ⟨c', hc', -⟩ := draw_isSome realMath a.chart ha 1
      refine ⟨c', hc', ?_⟩
      simp only [frame, real_lt, not_lt.2 ht, decide_False, hc']
      rfl
  have hrun : ∀ (es : List ℝ), (∀ e ∈ es, 0 ≤ e) → ∀ a : Animation ℝ, a.chart.WellFormed →
      (∀ q ∈ a.calls, 0 ≤ q ∧ q ≤ 1) → (a.scheduled = false → a.calls.getLast? = some 1) →
      ∃ a', refreshes realMath es a = some a' ∧
        (∀ q ∈ a'.calls, 0 ≤ q ∧ q ≤ 1) ∧
        (a'.scheduled = false → a'.calls.getLast? = some 1) ∧
        ((a.scheduled = false ∨ ∃ e ∈ es, 1 ≤ e / 1000) → a'.scheduled = false) := by
    intro es
    induction es with
    | nil =>
      intro _ a _ hcalls hlast
      refine ⟨a, rfl, hcalls, hlast, ?_⟩
      rintro (h | ⟨e, he, -⟩)
      · exact h
      · simp at he
    | cons e es ih =>
      intro hes a ha hcalls hlast
      have he : 0 ≤ e := hes e (List.mem_cons_self _ _)
      have hes' : ∀ x ∈ es, 0 ≤ x := fun x hx => hes x (List.mem_cons_of_mem _ hx)
      by_cases hs : a.scheduled = false
      · refine ⟨a, refreshes_stopped realMath _ a hs, hcalls, hlast, fun _ => hs⟩
      · have hs' : a.scheduled = true := by simpa using hs
        by_cases ht : e / 1000 < 1
        · obtain ⟨h0, h1, c', hc', hf⟩ := (hstep a ha e he).1 ht
          obtain ⟨c'', hc'', hwf''⟩ :=
            draw_isSome realMath a.chart ha (easeOutExpo realMath (e / 1000))
          rw [hc'] at hc''
          simp only [Option.some.injEq] at hc''
          subst hc''
          obtain ⟨a', r1, r2, r3, r4⟩ := ih hes'
            { chart := c', scheduled := true,
              calls := a.calls ++ [easeOutExpo realMath (e / 1000)] } hwf''
            (by
              intro q hq
              simp only [List.mem_append, List.mem_singleton] at hq
              rcases hq with hq | hq
              · exact hcalls q hq
              · rw [hq]; exact ⟨h0, le_of_lt h1⟩)
            (by intro h; simp at h)
          refine ⟨a', ?_, r2, r3, ?_⟩
          · simp only [refreshes, refresh, hs', if_true, hf]
            exact r1
          · rintro (h | ⟨x, hx, hx1⟩)
            · exact absurd h hs
            · simp only [List.mem_cons] at hx
              rcases hx with hx | hx
              · rw [hx] at hx1
                exact absurd ht (not_lt.2 hx1)
              · exact r4 (Or.inr ⟨x, hx, hx1⟩)
        · obtain ⟨c', hc', hf⟩ := (hstep a ha e he).2 (not_lt.1 ht)
          refine ⟨{ chart := c', scheduled := false, calls := a.calls ++ [1] }, ?_, ?_, ?_, ?_⟩
          · simp only [refreshes, refresh, hs', if_true, hf]
            exact refreshes_stopped realMath _ _ rfl
          · intro q hq
            simp only [List.mem_append, List.mem_singleton] at hq
            rcases hq with hq | hq
            · exact hcalls q hq
            · rw [hq]; norm_num
          · intro _
            simp
          · intro _
            rfl
  refine ⟨hstep, ?_, fun a h es => refreshes_stopped realMath es a h⟩
  intro es hes
  obtain ⟨c', hc', hwf'⟩ := draw_isSome realMath c hwf 1
  obtain ⟨a', r1, r2, r3, r4⟩ := hrun es hes { chart := c', scheduled := true, calls := [1] } hwf'
    (by intro q hq; simp only [List.mem_singleton] at hq; rw [hq]; norm_num)
    (by intro h; simp at h)
  refine ⟨{ chart := c', scheduled := true, calls := [1] }, a', ?_, rfl, r1, r2, r3, ?_⟩
  · simp only [PieChart.connectedCallback, hc']
  · intro h
    exact r4 (Or.inr h)

/-- The witness of `frame_progress_bounds`: the component built from the
values 1, 1, 2, refreshed at 0, 500, 1000 and 1500 milliseconds. -/
theorem frame_progress_bounds_witness :
    ∃ a0 a',
      (PieChart.build ([1, 1, 2] : List ℝ) [] defaultColors "0.015" "0.005").connectedCallback
        realMath = some a0 ∧ a0.calls = [1] ∧
      refreshes realMath [0, 500, 1000, 1500] a0 = some a' ∧
      (∀ q ∈ a'.calls, 0 ≤ q ∧ q ≤ 1) ∧
      (a'.scheduled = false → a'.calls.getLast? = some 1) ∧
      ((∃ e ∈ ([0, 500, 1000, 1500] : List ℝ), 1 ≤ e / 1000) → a'.scheduled = false) :=
  (frame_progress_bounds (PieChart.build ([1, 1, 2] : List ℝ) [] defaultColors "0.015" "0.005")
    (build_wellFormed _ _ _ _ _)).2.1 [0, 500, 1000, 1500] (by
      intro e he
      simp only [List.mem_cons, List.mem_singleton, List.not_mem_nil, or_false] at he
      rcases he with h | h | h | h <;> rw [h] <;> norm_num)

/-- C9: `handlePathHover(i)` emits exactly one `sectionhover` event with
payload `i` and makes label `i` active if it exists; `handlePathOut(i)` emits
nothing and makes label `i` inactive if it exists.  Both leave every label
`j ≠ i` as it is, change only the class list of label `i`, and leave the labels
as they are when label `i` does not exist; hover followed by out leaves
label `i` inactive. -/
theorem hover_out_label (c : PieChart ℝ) (i : Nat) :
    (c.handlePathHover i).events = c.events ++ [CustomEvent.mk "sectionhover" i] ∧
    (c.handlePathOut i).events = c.events ∧
    (∀ l : LabelEl ℝ, c.labels[i]? = some l →
      (∃ l', (c.handlePathHover i).labels[i]? = some l' ∧ l'.isActive = true ∧
        l'.innerText = l.innerText ∧ l'.top = l.top ∧ l'.left = l.left) ∧
      (∃ l', (c.handlePathOut i).labels[i]? = some l' ∧ l'.isActive = false ∧
        l'.innerText = l.innerText ∧ l'.top = l.top ∧ l'.left = l.left) ∧
      (∃ l', ((c.handlePathHover i).handlePathOut i).labels[i]? = some l' ∧
        l'.isActive = false)) ∧
    (∀ j, j ≠ i →
      (c.handlePathHover i).labels[j]? = c.labels[j]? ∧
      (c.handlePathOut i).labels[j]? = c.labels[j]?) ∧
    (c.labels[i]? = none →
      (c.handlePathHover i).labels = c.labels ∧ (c.handlePathOut i).labels = c.labels) := by
  refine ⟨?_, ?_, ?_, ?_, ?_⟩
  · simp [PieChart.handlePathHover]
  · simp [PieChart.handlePathOut]
  · intro l hl
    refine ⟨⟨classListAdd "is-active" l, ?_, isActive_add l, rfl, rfl, rfl⟩,
      ⟨classListRemove "is-active" l, ?_, isActive_remove l, rfl, rfl, rfl⟩,
      ⟨classListRemove "is-active" (classListAdd "is-active" l), ?_, isActive_remove _⟩⟩
    · simp only [PieChart.handlePathHover]
      rw [updateAt_self, hl]
      rfl
    · simp only [PieChart.handlePathOut]
      rw [updateAt_self, hl]
      rfl
    · simp only [PieChart.handlePathHover, PieChart.handlePathOut]
      rw [updateAt_self, updateAt_self, hl]
      rfl
  · intro j hj
    simp only [PieChart.handlePathHover, PieChart.handlePathOut]
    exact ⟨updateAt_ne _ _ _ _ hj, updateAt_ne _ _ _ _ hj⟩
  · intro h
    simp only [PieChart.handlePathHover, PieChart.handlePathOut]
    exact ⟨updateAt_none _ _ _ h, updateAt_none _ _ _ h⟩

/-- C10: when the constructor succeeds with a non-empty palette of length `n`
(the `colors` attribute split at `;`, or the seven default colours), the fill
of segment `i` is `palette[i mod n]`, so segments `i` and `i + n` get the same
fill; with the default colours and 10 segments, segment 7 gets the fill of
segment 0, `#faaa32`. -/
theorem palette_cycles (parseFloat : String → ℝ) (attrs : Attrs) (c : PieChart ℝ)
    (hc : PieChart.new parseFloat attrs = some c) (palette : List String)
    (hpal : palette = (attrs.colors.map (fun s => split s ';')).getD defaultColors)
    (hne : palette ≠ []) :
    (∀ i, i < c.data.length →
      ∃ color, palette[i % palette.length]? = some color ∧
        (c.paths[i]?).map (fun q => q.fill) = some color) ∧
    (∀ i, i + palette.length < c.data.length →
      (c.paths[i + palette.length]?).map (fun q => q.fill) =
        (c.paths[i]?).map (fun q => q.fill)) ∧
    (attrs.colors = none → c.data.length = 10 →
      (c.paths[7]?).map (fun q => q.fill) = (c.paths[0]?).map (fun q => q.fill) ∧
      (c.paths[0]?).map (fun q => q.fill) = some "#faaa32") := by
  have hn : 0 < palette.length := List.length_pos.2 hne
  have hfill : ∀ i, i < c.data.length →
      (c.paths[i]?).map (fun q => q.fill) =
        some (palette.get ⟨i % palette.length, Nat.mod_lt _ hn⟩) := by
    intro i hi
    unfold PieChart.new at hc
    cases hd : attrs.data with
    | none => simp [hd] at hc
    | some raw =>
      simp only [hd, Option.some.injEq] at hc
      subst hc
      simp only [PieChart.build] at hi ⊢
      rw [List.getElem?_mapIdx, List.getElem?_eq_getElem hi]
      simp only [Option.map_some', newPath, ← hpal, Option.some.injEq]
      rw [List.getElem?_eq_getElem (Nat.mod_lt _ hn)]
      rfl
  refine ⟨?_, ?_, ?_⟩
  · intro i hi
    exact ⟨_, List.getElem?_eq_getElem (Nat.mod_lt _ hn), hfill i hi⟩
  · intro i hi
    rw [hfill _ hi, hfill i (by omega)]
    simp only [Nat.add_mod_right]
  · intro hcol hlen
    have hp : palette = defaultColors := by rw [hpal, hcol]; rfl
    subst hp
    rw [hfill 7 (by omega), hfill 0 (by omega)]
    exact ⟨rfl, rfl⟩

/-- The witness of `palette_cycles`: ten values and no `colors` attribute. -/
theorem palette_cycles_witness :
    ∃ c : PieChart ℝ,
      PieChart.new (fun _ => (1 : ℝ)) ⟨some "1;1;1;1;1;1;1;1;1;1", none, none, none, none⟩ =
        some c ∧
      (c.paths[7]?).map (fun q => q.fill) = (c.paths[0]?).map (fun q => q.fill) ∧
      (c.paths[0]?).map (fun q => q.fill) = some "#faaa32" :=
  ⟨_, rfl,
    (palette_cycles (fun _ => (1 : ℝ)) ⟨some "1;1;1;1;1;1;1;1;1;1", none, none, none, none⟩ _ rfl
      defaultColors rfl (by decide)).2.2 rfl (by decide)⟩

end Claims

end Graphiques
